import Mathlib

/-!
Verification of the configuration-model extractor of the MuleSoft migration
assessment tool (`migration_assessment.py`).  The Python source is shallowly
embedded: parsed XML documents become a tree type `Xml` (the external parser of
section 6 of the design is modelled by giving each configuration file its parse
result as an `Option Xml`), Python dicts become association lists with
replace-first insertion, Python string operations are implemented over
`List Char`, floats are modelled as exact rationals with explicit rounding, and
the directory tree walked by project discovery becomes the tree type `FsDir`.
-/

/-! ## Python string primitives (faithful to `str.split`, `in`, `startswith`,
`endswith`, indexing used by the source) -/

/-- Boolean test that `p` is a leading segment of `s` (character lists). -/
def listPrefixOf : List Char → List Char → Bool
  | [], _ => true
  | _ :: _, [] => false
  | a :: as, b :: bs => a == b && listPrefixOf as bs

/-- Python `pat in s` (substring containment) on character lists. -/
def containsSub : List Char → List Char → Bool
  | [], pat => listPrefixOf pat []
  | c :: cs, pat => listPrefixOf pat (c :: cs) || containsSub cs pat

/-- Python `pat in s` on strings. -/
def strContains (s pat : String) : Bool := containsSub s.data pat.data

/-- Python `s.startswith(pat)`. -/
def strStartsWith (s pat : String) : Bool := listPrefixOf pat.data s.data

/-- Python `s.endswith(pat)`. -/
def strEndsWith (s pat : String) : Bool := listPrefixOf pat.data.reverse s.data.reverse

/-- Python `s.split(sep)` for a one-character separator, keeping empty chunks. -/
def splitCharList (sep : Char) : List Char → List (List Char)
  | [] => [[]]
  | c :: cs =>
    let r := splitCharList sep cs
    if c == sep then [] :: r
    else match r with
      | [] => [[c]]
      | h :: t => (c :: h) :: t

/-- Chunks of `cs` split at characters satisfying `p`, keeping empty chunks. -/
def splitPredList (p : Char → Bool) : List Char → List (List Char)
  | [] => [[]]
  | c :: cs =>
    let r := splitPredList p cs
    if p c then [] :: r
    else match r with
      | [] => [[c]]
      | h :: t => (c :: h) :: t

/-- Python `s.split()` (no argument): split on whitespace runs, dropping empty
chunks. -/
def pySplitWs (s : String) : List String :=
  ((splitPredList (fun c => c.isWhitespace) s.data).filter (fun l => !l.isEmpty)).map
    (fun l => String.mk l)

/-- Joins chunks with a one-character separator (inverse of `splitCharList`). -/
def joinWith (sep : Char) : List (List Char) → List Char
  | [] => []
  | [l] => l
  | l :: rest => l ++ sep :: joinWith sep rest

/-- Python `s.split(':')[1]`: the chunk between the first and second colon
(used on attribute names already known to start with `xmlns:`). -/
def chunkAfterColon (s : String) : String :=
  String.mk ((splitCharList ':' s.data).getD 1 [])

/-- Python `s.split('/')[-1]`: the final path segment of a URI. -/
def lastSeg (s : String) : String :=
  String.mk ((splitCharList '/' s.data).getLastD [])

/-! ## Python dict as an association list

Python dicts have unique keys; assignment to an existing key replaces the value
in place, a new key is appended.  `dictInsert` replaces the first occurrence or
appends, which agrees with Python on every dict actually built by the code. -/

/-- Python `d.get(k)` / `d[k]`: the value at the first entry with key `k`. -/
def dictGet {α : Type} (d : List (String × α)) (k : String) : Option α :=
  (d.find? (fun kv => kv.1 == k)).map (fun kv => kv.2)

/-- Python `d.get(k, v0)`. -/
def dictGetD {α : Type} (d : List (String × α)) (k : String) (v0 : α) : α :=
  (dictGet d k).getD v0

/-- Python `d[k] = v`. -/
def dictInsert {α : Type} : List (String × α) → String → α → List (String × α)
  | [], k, v => [(k, v)]
  | kv :: rest, k, v =>
    if kv.1 == k then (k, v) :: rest else kv :: dictInsert rest k v

/-- Python `d[k] = d.get(k, 0) + n`. -/
def bump (d : List (String × Nat)) (k : String) (n : Nat) : List (String × Nat) :=
  dictInsert d k (dictGetD d k 0 + n)

/-- Sum of all values of a counter dict. -/
def sumVals (d : List (String × Nat)) : Nat := (d.map (fun kv => kv.2)).sum

/-- The key list of a dict. -/
def dictKeys {α : Type} (d : List (String × α)) : List String := d.map (fun kv => kv.1)

/-! ## The parsed XML document model

`xml.etree.ElementTree` presents each element as a qualified tag string
(namespaced tags have the form `{uri}localname`), an attribute dict and child
elements.  The parser itself is an external collaborator (design section 6), so
documents are arbitrary trees of this shape. -/

/-- A parsed XML element: tag, attributes (in document order), children. -/
inductive Xml where
  | mk (tag : String) (attrib : List (String × String)) (children : List Xml)

/-- The tag of an element. -/
def Xml.tag : Xml → String
  | .mk t _ _ => t

/-- The attribute dict of an element. -/
def Xml.attrib : Xml → List (String × String)
  | .mk _ a _ => a

/-- The children of an element. -/
def Xml.children : Xml → List Xml
  | .mk _ _ c => c

mutual
/-- `list(root.iter())`: the element and all descendants in document order. -/
def Xml.iterL : Xml → List Xml
  | .mk t a c => .mk t a c :: iterLs c

/-- `iter` concatenated over a list of sibling elements. -/
def iterLs : List Xml → List Xml
  | [] => []
  | x :: xs => x.iterL ++ iterLs xs
end

mutual
/-- The number of elements in a document (root included), defined by structural
recursion, independently of the iteration order. -/
def Xml.size : Xml → Nat
  | .mk _ _ c => 1 + sizeL c

/-- Total size of a list of sibling subtrees. -/
def sizeL : List Xml → Nat
  | [] => 0
  | x :: xs => x.size + sizeL xs
end

/-- Structural induction for `Xml` through the nested list of children. -/
theorem Xml.strongInd (P : Xml → Prop)
    (h : ∀ t a c, (∀ y, y ∈ c → P y) → P (Xml.mk t a c)) : ∀ x, P x
  | Xml.mk t a c => h t a c (fun y hy => Xml.strongInd P h y)
termination_by x => sizeOf x
decreasing_by
  have h1 : sizeOf y < sizeOf c := List.sizeOf_lt_of_mem hy
  simp only [Xml.mk.sizeOf_spec]
  omega

theorem iterLs_append (l₁ l₂ : List Xml) :
    iterLs (l₁ ++ l₂) = iterLs l₁ ++ iterLs l₂ := by
  induction l₁ with
  | nil => simp [iterLs]
  | cons x xs ih => simp [iterLs, ih]

/-- The document-order iteration visits exactly `size` elements. -/
theorem iterL_length (x : Xml) : (Xml.iterL x).length = Xml.size x := by
  induction x using Xml.strongInd with
  | h t a c ih =>
    have hl : ∀ l : List Xml, (∀ y, y ∈ l → (Xml.iterL y).length = Xml.size y) →
        (iterLs l).length = sizeL l := by
      intro l
      induction l with
      | nil => intro _; simp [iterLs, sizeL]
      | cons z zs ihz =>
        intro hmem
        simp only [iterLs, sizeL, List.length_append]
        rw [hmem z (by simp), ihz (fun y hy => hmem y (by simp [hy]))]
    simp only [Xml.iterL, Xml.size, List.length_cons]
    rw [hl c ih]
    omega

/-- `iterL` always starts with the root, hence is never empty. -/
theorem iterL_ne_nil (x : Xml) : Xml.iterL x ≠ [] := by
  cases x with
  | mk t a c => simp [Xml.iterL]

/-! ## Namespace Resolver (`_analyze_xml_file`, lines 290-320)

Two passes build `namespace_mappings : uri → {prefix, connector_name}`:
(a) the `xsi:schemaLocation` attribute read as alternating (uri, schema) pairs,
keeping Mule-convention URIs whose declaring `xmlns:` attribute is found;
(b) every root attribute `xmlns:p = uri` with a Mule-convention URI.
Both passes write into the same dict, so pass (b) overrides on conflict. -/

/-- Resolver output for one namespace URI: declared prefix and connector name. -/
structure NsInfo where
  pfx : String
  connector_name : String
deriving DecidableEq

/-- The ElementTree key of the `xsi:schemaLocation` attribute. -/
def xsiSchemaLocationKey : String :=
  "\x7bhttp://www.w3.org/2001/XMLSchema-instance\x7dschemaLocation"

/-- The Mule connector-schema URI convention tested with Python `in`. -/
def muleConv : String := "mulesoft.org/schema/mule"

/-- `root.get(key, default)` on the attribute dict. -/
def getAttrD (x : Xml) (k d : String) : String := dictGetD x.attrib k d

/-- Consecutive pairs of a flat list; a trailing odd element is dropped
(`for i in range(0, len(parts), 2): if i + 1 < len(parts)`). -/
def pairUp {α : Type} : List α → List (α × α)
  | a :: b :: rest => (a, b) :: pairUp rest
  | _ => []

/-- The (namespace_uri, schema_path) pairs of the `schemaLocation` attribute. -/
def schemaLocPairs (x : Xml) : List (String × String) :=
  pairUp (pySplitWs (getAttrD x xsiSchemaLocationKey ""))

/-- The first root attribute `xmlns:* = uri` declaring the given URI
(`attr_value == namespace_uri and attr_name.startswith('xmlns:')`). -/
def findXmlnsAttr (x : Xml) (uri : String) : Option String :=
  (x.attrib.find? (fun kv => kv.2 == uri && strStartsWith kv.1 "xmlns:")).map
    (fun kv => kv.1)

/-- One step of pass (a): record a Mule-convention schema-location URI when its
declaring prefix can be recovered from the root attributes. -/
def passAStep (x : Xml) (acc : List (String × NsInfo)) (pr : String × String) :
    List (String × NsInfo) :=
  if strContains pr.1 muleConv then
    match findXmlnsAttr x pr.1 with
    | some attrName => dictInsert acc pr.1 ⟨chunkAfterColon attrName, lastSeg pr.1⟩
    | none => acc
  else acc

/-- Pass (a) alone: schema-location derived mappings. -/
def passAMap (x : Xml) : List (String × NsInfo) :=
  (schemaLocPairs x).foldl (passAStep x) []

/-- One step of pass (b): record a direct `xmlns:p = uri` declaration whose URI
matches the Mule convention. -/
def passBStep (acc : List (String × NsInfo)) (kv : String × String) :
    List (String × NsInfo) :=
  if strStartsWith kv.1 "xmlns:" && strContains kv.2 muleConv then
    dictInsert acc kv.2 ⟨chunkAfterColon kv.1, lastSeg kv.2⟩
  else acc

/-- Pass (b) alone: direct-declaration derived mappings. -/
def passBMap (x : Xml) : List (String × NsInfo) :=
  x.attrib.foldl passBStep []

/-- `namespace_mappings` of `_analyze_xml_file`: pass (a), then pass (b) writing
into the same dict. -/
def namespaceMappings (x : Xml) : List (String × NsInfo) :=
  x.attrib.foldl passBStep (passAMap x)

/-! ## Element Tally Engine and Flow Topology Counter
(`_analyze_xml_file`, lines 322-367) -/

/-- The namespace key and local name of one element tag (lines 327-344):
`{uri}local` tags are resolved through `namespace_mappings`, unresolved
Mule-convention URIs get an `(ns:)` marker, other URIs an `other (...)` key,
and unnamespaced tags the `default` key. -/
def tagClassify (m : List (String × NsInfo)) (tag : String) : String × String :=
  if strContains tag "\x7d" then
    let parts := splitCharList '\x7d' tag.data
    let localName := String.mk (parts.getLastD [])
    let uri := String.mk ((joinWith '\x7d' parts.dropLast).drop 1)
    match dictGet m uri with
    | some info => (info.connector_name ++ " (" ++ info.pfx ++ ":)", localName)
    | none =>
      if strContains uri muleConv then (lastSeg uri ++ " (ns:)", localName)
      else ("other (" ++ uri ++ ")", localName)
  else ("default", tag)

/-- Nested tally increment `d[ns][local] += 1` with `setdefault` semantics. -/
def tallyAdd (d : List (String × List (String × Nat))) (k1 k2 : String) :
    List (String × List (String × Nat)) :=
  dictInsert d k1 (bump (dictGetD d k1 []) k2 1)

/-- `xml_tags_by_namespace`: tally of every element (root included) by
namespace key and local name. -/
def tallyTags (x : Xml) : List (String × List (String × Nat)) :=
  let m := namespaceMappings x
  (Xml.iterL x).foldl
    (fun acc e =>
      let c := tagClassify m e.tag
      tallyAdd acc c.1 c.2) []

/-- An element counted as a flow (`tag.endswith('}flow') or tag == 'flow'`). -/
def isFlowTag (t : String) : Bool := strEndsWith t "\x7dflow" || t == "flow"

/-- An element counted as a sub-flow (the `elif` branch of the counter). -/
def isSubFlowTag (t : String) : Bool := strEndsWith t "\x7dsub-flow" || t == "sub-flow"

/-- Per-file analysis record of `_analyze_xml_file`. -/
structure FileAnalysis where
  line_count : Nat
  flows : Nat
  subflows : Nat
  components : Nat
  xml_tags_by_namespace : List (String × List (String × Nat))
deriving DecidableEq

/-- `_analyze_xml_file`: the line count is taken from the readable content
before parsing; a parse failure (`parsed = none`, the `ET.ParseError` branch)
leaves every other field at its zero initial value. -/
def analyzeXmlFile (lineCount : Nat) (parsed : Option Xml) : FileAnalysis :=
  match parsed with
  | none =>
    { line_count := lineCount, flows := 0, subflows := 0, components := 0,
      xml_tags_by_namespace := [] }
  | some root =>
    { line_count := lineCount
      flows := (Xml.iterL root).countP (fun e => isFlowTag e.tag)
      subflows := (Xml.iterL root).countP
        (fun e => !isFlowTag e.tag && isSubFlowTag e.tag)
      components := (Xml.iterL root).length - 1
      xml_tags_by_namespace := tallyTags root }

/-! ## Connector Attribution Pass (`_extract_connectors_from_xml`, lines 374-445)

Builds a prefix → connector dict (`namespaces`) from the same two passes, but
filtering out the reserved segment names `core` and `documentation`, then
attributes every element to a connector and counts usage and component types. -/

/-- One step of the schema-location pass of `_extract_connectors_from_xml`:
like `passAStep` but keyed by prefix and filtering `core`/`documentation`. -/
def extPassAStep (x : Xml) (acc : List (String × String)) (pr : String × String) :
    List (String × String) :=
  if strContains pr.1 muleConv then
    let c := lastSeg pr.1
    if c == "core" || c == "documentation" then acc
    else
      match findXmlnsAttr x pr.1 with
      | some attrName => dictInsert acc (chunkAfterColon attrName) c
      | none => acc
  else acc

/-- One step of the direct-declaration pass of `_extract_connectors_from_xml`. -/
def extPassBStep (acc : List (String × String)) (kv : String × String) :
    List (String × String) :=
  if strStartsWith kv.1 "xmlns:" && strContains kv.2 muleConv then
    let c := lastSeg kv.2
    if c == "core" || c == "documentation" then acc
    else dictInsert acc (chunkAfterColon kv.1) c
  else acc

/-- The `namespaces` dict (prefix → connector) of `_extract_connectors_from_xml`. -/
def extNamespaces (x : Xml) : List (String × String) :=
  x.attrib.foldl extPassBStep ((schemaLocPairs x).foldl (extPassAStep x) [])

/-- Connector resolution for one element tag (lines 408-427): `{uri}local`
tags map Mule-convention URIs to their last segment (reserved names collapse to
`core`), `prefix:local` tags resolve through the `namespaces` dict, and bare
tags resolve to `core`.  Returns `(connector_name, local_name)` where the
connector is `none` when Python would hold `None`. -/
def connectorOfTag (ns : List (String × String)) (tag : String) :
    Option String × String :=
  if strContains tag "\x7d" then
    let parts := splitCharList '\x7d' tag.data
    let localName := String.mk (parts.getLastD [])
    let uri := String.mk ((joinWith '\x7d' parts.dropLast).drop 1)
    (if strContains uri muleConv then
      let c := lastSeg uri
      some (if c == "core" || c == "documentation" then "core" else c)
     else none, localName)
  else if strContains tag ":" then
    let parts := splitCharList ':' tag.data
    (dictGet ns (String.mk (parts.headD [])), String.mk (joinWith ':' parts.tail))
  else (some "core", tag)

/-- One element's attribution (lines 429-437): when the connector name is
truthy (`if connector_name:` — `None` and the empty string are skipped), bump
`connector_usage_count[connector]` and `component_types[type]` by one, where
the type key is `connector:local` for non-core connectors and `local` for core. -/
def attributeElement (ns : List (String × String))
    (st : List (String × Nat) × List (String × Nat)) (e : Xml) :
    List (String × Nat) × List (String × Nat) :=
  match connectorOfTag ns e.tag with
  | (some c, localName) =>
    if c == "" then st
    else (bump st.1 c 1,
          bump st.2 (if c == "core" then localName else c ++ ":" ++ localName) 1)
  | (none, _) => st

/-- Python `list(set(a) | set(vals))` for `unique_connectors`; set order is
unspecified, modelled as keeping first occurrences. -/
def uniqueUnion (a vals : List String) : List String := (a ++ vals).dedup

/-- `_extract_connectors_from_xml` on the mutable triple
(`unique_connectors`, `connector_usage_count`, `component_types`); a parse
failure (the `except` branch) leaves the triple unchanged. -/
def extractConnectorsFromXml (parsed : Option Xml)
    (st : List String × List (String × Nat) × List (String × Nat)) :
    List String × List (String × Nat) × List (String × Nat) :=
  match parsed with
  | none => st
  | some root =>
    let ns := extNamespaces root
    let counts := (Xml.iterL root).foldl (attributeElement ns) (st.2.1, st.2.2)
    (uniqueUnion st.1 (ns.map (fun kv => kv.2)), counts.1, counts.2)

/-! ## Per-project accumulation (`_analyze_configuration_files` and
`_analyze_dataweave_in_xml`)

A configuration file is given by its name, the line count of its readable
content (`len(content.splitlines())`), the external parser's result, and the
line spans of the matches the external regex engine finds for the three
DataWeave patterns in the raw text (the lexical scan never parses the XML). -/

/-- One configuration file as consumed by the analyzer. -/
structure XmlFile where
  name : String
  lineCount : Nat
  parsed : Option Xml
  dwSpans : List Nat

/-- The per-file entry appended to `configuration_files.files`. -/
structure FileRecord where
  filename : String
  size_lines : Nat
  flows : Nat
  subflows : Nat
  components : Nat
  xml_tags_by_namespace : List (String × List (String × Nat))
deriving DecidableEq

/-- Project-level mutable state accumulated over configuration files. -/
structure ProjectAcc where
  fileRecords : List FileRecord
  total_flows : Nat
  total_subflows : Nat
  total_components : Nat
  large_files : List (String × Nat)
  unique_connectors : List String
  connector_usage_count : List (String × Nat)
  component_types : List (String × Nat)
  inline_dw_expressions_count : Nat
  complex_transformations : Nat
  total_dw_lines : Nat
  warnings : List String
deriving DecidableEq

/-- The fresh project state of `analyze_project`. -/
def emptyAcc : ProjectAcc :=
  { fileRecords := [], total_flows := 0, total_subflows := 0,
    total_components := 0, large_files := [], unique_connectors := [],
    connector_usage_count := [], component_types := [],
    inline_dw_expressions_count := 0, complex_transformations := 0,
    total_dw_lines := 0, warnings := [] }

/-- The `FileRecord` produced for one file. -/
def recordOf (f : XmlFile) : FileRecord :=
  let fa := analyzeXmlFile f.lineCount f.parsed
  { filename := f.name, size_lines := fa.line_count, flows := fa.flows,
    subflows := fa.subflows, components := fa.components,
    xml_tags_by_namespace := fa.xml_tags_by_namespace }

/-- The warnings printed for one file: a parse failure is reported by both
`_analyze_xml_file` and `_extract_connectors_from_xml` (readable content, so
`_analyze_dataweave_in_xml` never warns here). -/
def warningsOf (f : XmlFile) : List String :=
  match f.parsed with
  | none => ["Could not parse XML file " ++ f.name,
             "Could not extract connectors from " ++ f.name]
  | some _ => []

/-- The loop body of `_analyze_configuration_files` for one file, including the
embedded `_analyze_dataweave_in_xml` contribution (match count, matches of
more than 10 lines as complex transformations, match line total). -/
def processFile (acc : ProjectAcc) (f : XmlFile) : ProjectAcc :=
  let fa := analyzeXmlFile f.lineCount f.parsed
  let tri := extractConnectorsFromXml f.parsed
    (acc.unique_connectors, acc.connector_usage_count, acc.component_types)
  { fileRecords := acc.fileRecords ++ [recordOf f]
    total_flows := acc.total_flows + fa.flows
    total_subflows := acc.total_subflows + fa.subflows
    total_components := acc.total_components + fa.components
    large_files :=
      if 1000 < fa.line_count then acc.large_files ++ [(f.name, fa.line_count)]
      else acc.large_files
    unique_connectors := tri.1
    connector_usage_count := tri.2.1
    component_types := tri.2.2
    inline_dw_expressions_count :=
      acc.inline_dw_expressions_count + f.dwSpans.length
    complex_transformations :=
      acc.complex_transformations + (f.dwSpans.filter (fun n => 10 < n)).length
    total_dw_lines := acc.total_dw_lines + f.dwSpans.sum
    warnings := acc.warnings ++ warningsOf f }

/-- `_analyze_configuration_files`: fold the loop body over the project's
configuration files in order. -/
def analyzeConfigurationFiles (files : List XmlFile) : ProjectAcc :=
  files.foldl processFile emptyAcc

/-! ## Complexity Scorer (`_calculate_project_complexity`, lines 582-607) -/

/-- The static connector weight table (`connector_complexity_scores`). -/
def connector_complexity_scores : List (String × ℚ) :=
  [("http", 1), ("db", 2), ("file", 1), ("ftp", 2), ("sftp", 2), ("jms", 3),
   ("vm", 1), ("sap", 5), ("salesforce", 4), ("servicenow", 4), ("aws-s3", 3),
   ("aws-sqs", 3), ("email", 2), ("compression", 1), ("crypto", 2),
   ("validation", 1), ("json", 1), ("xml", 2), ("apikit", 2), ("oauth", 3),
   ("spring", 2), ("scripting", 3), ("java", 4)]

/-- `self.connector_complexity_scores.get(connector, 2)`. -/
def connectorWeight (c : String) : ℚ := dictGetD connector_complexity_scores c 2

/-- Python `round(x, 2)` modelled on exact rationals: round to the nearest
multiple of 1/100 (floats and their half-to-even tie rule are out of scope of
the shallow embedding; all quantities produced by the scorer are exact
hundredths, so ties do not arise from the formula's inputs). -/
def round2 (q : ℚ) : ℚ := ((round (q * 100) : ℤ) : ℚ) / 100

/-- `_calculate_project_complexity`: the weighted sum over connector usage plus
the fixed-weight terms, rounded to two decimals. -/
def calcProjectComplexity (usage : List (String × Nat))
    (flows subflows components javaFiles javaLines dwlFiles complexTrans
     largeFiles : Nat) : ℚ :=
  let s : ℚ := usage.foldl (fun acc kv => acc + connectorWeight kv.1 * (kv.2 : ℚ)) 0
  let s := s + (flows : ℚ) * 2
  let s := s + (subflows : ℚ) * 1
  let s := s + (components : ℚ) * (1 / 10)
  let s := s + (javaFiles : ℚ) * 5
  let s := s + (javaLines : ℚ) * (1 / 100)
  let s := s + (dwlFiles : ℚ) * 3
  let s := s + (complexTrans : ℚ) * 5
  let s := s + (largeFiles : ℚ) * 10
  round2 s

/-! ## Whole-project analysis (`analyze_project`)

Custom code and `.dwl` resources are simple I/O collaborators (line counts per
readable file); `_analyze_custom_code` counts Java files and lines, counts
`.dwl` files, adds their lines to the DataWeave totals and flags files of more
than 100 lines as complex transformations. -/

/-- The input of one project's analysis. -/
structure ProjectInput where
  xmlFiles : List XmlFile
  javaFileLines : List Nat
  dwlFileLines : List Nat

/-- The final per-project result fields used by the claims. -/
structure ProjectAnalysis where
  acc : ProjectAcc
  java_files_count : Nat
  total_custom_code_lines : Nat
  dwl_files_count : Nat
  complex_transformations : Nat
  total_dw_lines : Nat
  complexity_score : ℚ
deriving DecidableEq

/-- `analyze_project`: configuration files, then custom code and DataWeave
files, then the complexity score. -/
def analyzeProject (pi : ProjectInput) : ProjectAnalysis :=
  let acc := analyzeConfigurationFiles pi.xmlFiles
  let javaCount := pi.javaFileLines.length
  let javaLines := pi.javaFileLines.sum
  let dwlCount := pi.dwlFileLines.length
  let complexT := acc.complex_transformations +
    (pi.dwlFileLines.filter (fun n => 100 < n)).length
  let dwLines := acc.total_dw_lines + pi.dwlFileLines.sum
  { acc := acc
    java_files_count := javaCount
    total_custom_code_lines := javaLines
    dwl_files_count := dwlCount
    complex_transformations := complexT
    total_dw_lines := dwLines
    complexity_score := calcProjectComplexity acc.connector_usage_count
      acc.total_flows acc.total_subflows acc.total_components javaCount
      javaLines dwlCount complexT acc.large_files.length }

/-! ## Aggregator (`_calculate_summary_stats`, lines 609-651) -/

/-- The fields of one completed project result read by the aggregator. -/
structure SProj where
  mule_version : String
  total_flows : Nat
  total_subflows : Nat
  total_components : Nat
  java_files_count : Nat
  dwl_files_count : Nat
  munit_test_files : Nat
  complexity_score : ℚ
  connector_usage_count : List (String × Nat)
  component_types : List (String × Nat)
deriving DecidableEq

/-- The version-bucket loop (`if version.startswith('4.') ... elif ... else`),
returning (mule_4, mule_3, unknown) counts. -/
def versionCounts (ps : List SProj) : Nat × Nat × Nat :=
  ps.foldl
    (fun c p =>
      if strStartsWith p.mule_version "4." then (c.1 + 1, c.2.1, c.2.2)
      else if strStartsWith p.mule_version "3." then (c.1, c.2.1 + 1, c.2.2)
      else (c.1, c.2.1, c.2.2 + 1))
    (0, 0, 0)

/-- One project's dict folded into a `Counter` (`all_connectors[c] += count`). -/
def counterAddTable (acc t : List (String × Nat)) : List (String × Nat) :=
  t.foldl (fun a kv => bump a kv.1 kv.2) acc

/-- `connector_usage_summary`: connector usage summed across all projects. -/
def aggConnectorUsage (ps : List SProj) : List (String × Nat) :=
  ps.foldl (fun acc p => counterAddTable acc p.connector_usage_count) []

/-- `component_types_summary`: component types summed across all projects. -/
def aggComponentTypes (ps : List SProj) : List (String × Nat) :=
  ps.foldl (fun acc p => counterAddTable acc p.component_types) []

/-- The cross-project totals of `_calculate_summary_stats`. -/
structure SummaryTotals where
  total_flows : Nat
  total_subflows : Nat
  total_components : Nat
  total_java_files : Nat
  total_dwl_files : Nat
  total_munit_tests : Nat
  total_complexity_score : ℚ
deriving DecidableEq

/-- The `totals` dict (each entry a `sum(...)` over the project list). -/
def summaryTotals (ps : List SProj) : SummaryTotals :=
  { total_flows := (ps.map (fun p => p.total_flows)).sum
    total_subflows := (ps.map (fun p => p.total_subflows)).sum
    total_components := (ps.map (fun p => p.total_components)).sum
    total_java_files := (ps.map (fun p => p.java_files_count)).sum
    total_dwl_files := (ps.map (fun p => p.dwl_files_count)).sum
    total_munit_tests := (ps.map (fun p => p.munit_test_files)).sum
    total_complexity_score := (ps.map (fun p => p.complexity_score)).sum }

/-! ## Project Discovery Walker (`_find_mulesoft_projects_recursive` and
`_is_mulesoft_project`, lines 89-134)

The filesystem is modelled as a tree of directories, each with plain-file
names and subdirectories; `Path.exists` checks either kind. -/

/-- A directory: its name, its plain files' names, its subdirectories. -/
inductive FsDir where
  | mk (name : String) (files : List String) (subdirs : List FsDir)

/-- The directory's own name. -/
def FsDir.name : FsDir → String
  | .mk n _ _ => n

/-- The directory's plain-file names. -/
def FsDir.files : FsDir → List String
  | .mk _ f _ => f

/-- The directory's subdirectories. -/
def FsDir.subdirs : FsDir → List FsDir
  | .mk _ _ s => s

/-- `(d / p₁ / ... / pₙ).exists()`: follow directory components, the final
component may be a plain file or a directory. -/
def FsDir.hasPath : FsDir → List String → Bool
  | _, [] => true
  | d, [n] => d.files.contains n || d.subdirs.any (fun s => s.name == n)
  | d, n :: rest =>
    match d.subdirs.find? (fun s => s.name == n) with
    | some s => s.hasPath rest
    | none => false

/-- `_is_mulesoft_project`: a `pom.xml`, a `mule-artifact.json`, or a
`src/main/mule` path exists under the directory. -/
def isMulesoftProject (d : FsDir) : Bool :=
  d.hasPath ["pom.xml"] || d.hasPath ["mule-artifact.json"] ||
    d.hasPath ["src", "main", "mule"]

mutual
/-- `_find_mulesoft_projects_recursive` at one directory: stop when the
directory's relative depth exceeds `maxDepth`, otherwise scan its entries.
`targets = []` models an absent/empty `--projects` filter (Python truthiness).
Results are the reported projects' relative paths (as component lists). -/
def findIn (maxDepth : Nat) (targets : List String) :
    FsDir → List String → List (List String)
  | cur, relPath =>
    if relPath.length > maxDepth then []
    else findInList maxDepth targets cur.subdirs relPath
termination_by cur _ => sizeOf cur
decreasing_by
  cases cur with
  | mk n f s => simp [FsDir.subdirs]

/-- The `for item in current_path.iterdir()` loop: skip hidden directories,
report project roots (subject to the name filter) without recursing into them,
recurse into every other directory. -/
def findInList (maxDepth : Nat) (targets : List String) :
    List FsDir → List String → List (List String)
  | [], _ => []
  | item :: rest, relPath =>
    (if !(strStartsWith item.name ".") then
      (if isMulesoftProject item then
        (if targets.isEmpty || targets.contains item.name then
          [relPath ++ [item.name]]
         else [])
       else findIn maxDepth targets item (relPath ++ [item.name]))
     else []) ++ findInList maxDepth targets rest relPath
termination_by l _ => sizeOf l
decreasing_by
  all_goals simp
  omega
end

/-- `analyze_repository_folder`'s discovery call: the walk starts at the root
with relative depth 0 and the default `max_depth = 4`. -/
def findProjects (root : FsDir) (maxDepth : Nat) (targets : List String) :
    List (List String) :=
  findIn maxDepth targets root []

/-! ## Dictionary lemmas -/

theorem dictGet_nil {a : Type} (k : String) : dictGet ([] : List (String × a)) k = none := rfl

theorem dictGet_cons {a : Type} (kv : String × a) (rest : List (String × a))
    (k : String) :
    dictGet (kv :: rest) k = if kv.1 = k then some kv.2 else dictGet rest k := by
  by_cases h : kv.1 = k
  · rw [if_pos h]
    simp only [dictGet]
    rw [List.find?_cons_of_pos _ (by simp [h])]
    rfl
  · rw [if_neg h]
    simp only [dictGet]
    rw [List.find?_cons_of_neg _ (by simp [h])]

theorem dictInsert_cons {a : Type} (kv : String × a) (rest : List (String × a))
    (k : String) (v : a) :
    dictInsert (kv :: rest) k v =
      if kv.1 = k then (k, v) :: rest else kv :: dictInsert rest k v := by
  by_cases h : kv.1 = k <;> simp [dictInsert, h]

theorem dictGet_insert {a : Type} (d : List (String × a)) (k : String) (v : a)
    (q : String) :
    dictGet (dictInsert d k v) q = if q = k then some v else dictGet d q := by
  induction d with
  | nil =>
    show dictGet [(k, v)] q = _
    rw [dictGet_cons, dictGet_nil]
    split_ifs <;> simp_all
  | cons kv rest ih =>
    rw [dictInsert_cons]
    by_cases hk : kv.1 = k
    · rw [if_pos hk, dictGet_cons, dictGet_cons]
      split_ifs <;> simp_all
    · rw [if_neg hk, dictGet_cons, ih, dictGet_cons]
      split_ifs <;> simp_all

theorem dictGetD_insert {a : Type} (d : List (String × a)) (k : String) (v v0 : a)
    (q : String) :
    dictGetD (dictInsert d k v) q v0 = if q = k then v else dictGetD d q v0 := by
  by_cases h : q = k <;> simp [dictGetD, dictGet_insert, h]

theorem sumVals_nil : sumVals [] = 0 := rfl

theorem sumVals_cons (kv : String × Nat) (rest : List (String × Nat)) :
    sumVals (kv :: rest) = kv.2 + sumVals rest := by
  simp [sumVals]

theorem sumVals_bump (d : List (String × Nat)) (k : String) (n : Nat) :
    sumVals (bump d k n) = sumVals d + n := by
  induction d with
  | nil => simp [bump, dictInsert, dictGetD, dictGet, sumVals]
  | cons kv rest ih =>
    simp only [bump, dictGetD] at ih ⊢
    rw [dictGet_cons]
    by_cases hk : kv.1 = k
    · rw [if_pos hk, dictInsert_cons, if_pos hk, sumVals_cons, sumVals_cons]
      simp only [Option.getD_some]
      omega
    · rw [if_neg hk, dictInsert_cons, if_neg hk, sumVals_cons, sumVals_cons, ih]
      omega

theorem dictGetD_bump (d : List (String × Nat)) (k : String) (n : Nat)
    (c : String) :
    dictGetD (bump d k n) c 0 = dictGetD d c 0 + if c = k then n else 0 := by
  unfold bump
  rw [dictGetD_insert]
  by_cases h : c = k
  · rw [if_pos h, if_pos h, h]
  · rw [if_neg h, if_neg h]
    omega

theorem dictKeys_insert_mem {a : Type} (d : List (String × a)) (k : String)
    (v : a) (c : String) :
    c ∈ dictKeys (dictInsert d k v) ↔ c ∈ dictKeys d ∨ c = k := by
  induction d with
  | nil => simp [dictInsert, dictKeys]
  | cons kv rest ih =>
    rw [dictInsert_cons]
    by_cases hk : kv.1 = k
    · rw [if_pos hk]
      simp only [dictKeys, List.map_cons, List.mem_cons] at *
      constructor
      · rintro (h | h)
        · exact Or.inr h
        · exact Or.inl (Or.inr h)
      · rintro ((h | h) | h)
        · exact Or.inl (hk ▸ h)
        · exact Or.inr h
        · exact Or.inl h
    · rw [if_neg hk]
      simp only [dictKeys, List.map_cons, List.mem_cons] at *
      rw [ih]
      tauto

theorem dictKeys_bump_mem (d : List (String × Nat)) (k : String) (n : Nat)
    (c : String) :
    c ∈ dictKeys (bump d k n) ↔ c ∈ dictKeys d ∨ c = k :=
  dictKeys_insert_mem d k _ c

theorem mem_dictInsert {a : Type} (d : List (String × a)) (k : String) (v : a)
    (kv : String × a) :
    kv ∈ dictInsert d k v → kv ∈ d ∨ kv = (k, v) := by
  induction d with
  | nil => simp [dictInsert]
  | cons hd rest ih =>
    rw [dictInsert_cons]
    by_cases hk : hd.1 = k
    · rw [if_pos hk]
      simp only [List.mem_cons]
      rintro (h | h)
      · exact Or.inr h
      · exact Or.inl (Or.inr h)
    · rw [if_neg hk]
      simp only [List.mem_cons]
      rintro (h | h)
      · exact Or.inl (Or.inl h)
      · rcases ih h with h2 | h2
        · exact Or.inl (Or.inr h2)
        · exact Or.inr h2

/-! ## Claim C2 -/

/-- C2: for every configuration file whose document parses successfully, the
file's `total_components` (the `components` field of the per-file analysis)
equals the total number of elements in the parsed document minus one,
excluding the document root from the count. -/
theorem C2_components_eq_elements_minus_one (lineCount : Nat) (root : Xml) :
    (analyzeXmlFile lineCount (some root)).components = Xml.size root - 1 := by
  simp [analyzeXmlFile, iterL_length]

/-! ## Claim C7

The claim `flows + subflows ≤ total_components` fails when the document root
is itself a flow element: the root is counted as a flow but excluded from
`total_components`.  The inequality that does hold is
`flows + subflows ≤ total_components + 1`. -/

theorem countP_disjoint_le_length {α : Type} (p q : α → Bool) (l : List α) :
    l.countP p + l.countP (fun x => !p x && q x) ≤ l.length := by
  induction l with
  | nil => simp
  | cons x xs ih =>
    by_cases hp : p x
    · simp [List.countP_cons, hp]
      omega
    · by_cases hq : q x <;> simp [List.countP_cons, hp, hq] <;> omega

/-- C7 counterexample: a successfully parsed document whose root element is a
bare `flow` with no children has `flows = 1` and `total_components = 0`, so
`flows + subflows ≤ total_components` is false. -/
def flowOnlyDoc : Xml := Xml.mk "flow" [] []

/-- C7 is refuted on the single-element `flow` document. -/
theorem C7_counterexample :
    ¬ ((analyzeXmlFile 1 (some flowOnlyDoc)).flows
        + (analyzeXmlFile 1 (some flowOnlyDoc)).subflows
        ≤ (analyzeXmlFile 1 (some flowOnlyDoc)).components) := by
  decide

/-- C7 (amended): for every successfully parsed configuration document, the
file's flow count plus its sub-flow count is at most `total_components + 1`
(the element count including the document root); each element is counted at
most once since the sub-flow branch is an `elif`. -/
theorem C7_flows_subflows_le_components_succ (lineCount : Nat) (root : Xml) :
    (analyzeXmlFile lineCount (some root)).flows
      + (analyzeXmlFile lineCount (some root)).subflows
      ≤ (analyzeXmlFile lineCount (some root)).components + 1 := by
  simp only [analyzeXmlFile]
  have hle := countP_disjoint_le_length (fun e => isFlowTag e.tag)
    (fun e => isSubFlowTag e.tag) (Xml.iterL root)
  have hpos : 0 < (Xml.iterL root).length :=
    List.length_pos.mpr (iterL_ne_nil root)
  omega

/-! ## Claim C1 -/

theorem foldl_add_map_sum {β : Type} (g : β → ℚ) (l : List β) (c : ℚ) :
    l.foldl (fun acc x => acc + g x) c = c + (l.map g).sum := by
  induction l generalizing c with
  | nil => simp
  | cons x xs ih => simp [ih, add_assoc]

theorem analyzeXmlFile_line_count (lc : Nat) (p : Option Xml) :
    (analyzeXmlFile lc p).line_count = lc := by
  cases p <;> rfl

/-- `large_files` accumulated over a project is exactly the list of files of
more than 1000 lines, with their line counts. -/
theorem foldProcess_large (files : List XmlFile) (acc : ProjectAcc) :
    (files.foldl processFile acc).large_files =
      acc.large_files ++
        (files.filter (fun f => 1000 < f.lineCount)).map
          (fun f => (f.name, f.lineCount)) := by
  induction files generalizing acc with
  | nil => simp
  | cons f fs ih =>
    rw [List.foldl_cons, ih, List.filter_cons]
    by_cases h : 1000 < f.lineCount
    · simp [processFile, analyzeXmlFile_line_count, h]
    · simp [processFile, analyzeXmlFile_line_count, h]

/-- C1: for every project, the complexity score equals the weighted connector
sum (static table, default weight 2) plus `2·flows + 1·subflows +
0.1·components + 5·java_files + 0.01·custom_code_lines + 3·dwl_files +
5·complex_transformations + 10·(number of files of more than 1000 lines)`,
rounded to two decimal places; and the score is a pure function of exactly
these counts: projects with identical counts get the identical rounded value. -/
theorem C1_complexity_score_formula (pin : ProjectInput) :
    ((analyzeProject pin).complexity_score =
      round2
        (((analyzeProject pin).acc.connector_usage_count.map
            (fun kv => connectorWeight kv.1 * (kv.2 : ℚ))).sum
          + ((analyzeProject pin).acc.total_flows : ℚ) * 2
          + ((analyzeProject pin).acc.total_subflows : ℚ) * 1
          + ((analyzeProject pin).acc.total_components : ℚ) * (1 / 10)
          + ((analyzeProject pin).java_files_count : ℚ) * 5
          + ((analyzeProject pin).total_custom_code_lines : ℚ) * (1 / 100)
          + ((analyzeProject pin).dwl_files_count : ℚ) * 3
          + ((analyzeProject pin).complex_transformations : ℚ) * 5
          + (((pin.xmlFiles.filter (fun f => 1000 < f.lineCount)).length : ℚ)) * 10))
    ∧ ∀ p1 p2 : ProjectInput,
        (analyzeProject p1).acc.connector_usage_count
            = (analyzeProject p2).acc.connector_usage_count →
        (analyzeProject p1).acc.total_flows = (analyzeProject p2).acc.total_flows →
        (analyzeProject p1).acc.total_subflows
            = (analyzeProject p2).acc.total_subflows →
        (analyzeProject p1).acc.total_components
            = (analyzeProject p2).acc.total_components →
        (analyzeProject p1).java_files_count = (analyzeProject p2).java_files_count →
        (analyzeProject p1).total_custom_code_lines
            = (analyzeProject p2).total_custom_code_lines →
        (analyzeProject p1).dwl_files_count = (analyzeProject p2).dwl_files_count →
        (analyzeProject p1).complex_transformations
            = (analyzeProject p2).complex_transformations →
        (analyzeProject p1).acc.large_files.length
            = (analyzeProject p2).acc.large_files.length →
        (analyzeProject p1).complexity_score = (analyzeProject p2).complexity_score := by
  have hlarge : ∀ q : ProjectInput,
      (analyzeConfigurationFiles q.xmlFiles).large_files.length =
        (q.xmlFiles.filter (fun f => 1000 < f.lineCount)).length := by
    intro q
    unfold analyzeConfigurationFiles
    rw [foldProcess_large]
    simp [emptyAcc]
  constructor
  · simp only [analyzeProject, calcProjectComplexity]
    rw [foldl_add_map_sum, zero_add, hlarge]
  · intro p1 p2 h1 h2 h3 h4 h5 h6 h7 h8 h9
    simp only [analyzeProject, calcProjectComplexity] at h1 h2 h3 h4 h5 h6 h7 h8 h9 ⊢
    rw [h1, h2, h3, h4, h5, h6, h7, h8, h9]

/-- C1 witness: the theorem applied to a concrete project input, with the
determinism hypotheses discharged on two equal-count inputs. -/
theorem C1_complexity_score_formula_witness :
    (analyzeProject ⟨[⟨"a.xml", 1200, some flowOnlyDoc, [15]⟩], [40], [120]⟩).complexity_score
        = (analyzeProject ⟨[⟨"b.xml", 1200, some flowOnlyDoc, [15]⟩], [40], [120]⟩).complexity_score :=
  (C1_complexity_score_formula ⟨[⟨"a.xml", 1200, some flowOnlyDoc, [15]⟩], [40], [120]⟩).2
    ⟨[⟨"a.xml", 1200, some flowOnlyDoc, [15]⟩], [40], [120]⟩
    ⟨[⟨"b.xml", 1200, some flowOnlyDoc, [15]⟩], [40], [120]⟩
    (by decide) (by decide) (by decide) (by decide) (by decide) (by decide)
    (by decide) (by decide) (by decide)

/-! ## Claim C10 -/

/-- Every attribution step either bumps one entry of each of the two maps by
exactly one, or leaves the pair untouched. -/
theorem attributeElement_step (ns : List (String × String))
    (st : List (String × Nat) × List (String × Nat)) (e : Xml) :
    (sumVals (attributeElement ns st e).1 = sumVals st.1 + 1
      ∧ sumVals (attributeElement ns st e).2 = sumVals st.2 + 1)
    ∨ attributeElement ns st e = st := by
  rcases h : connectorOfTag ns e.tag with ⟨oc, ln⟩
  cases oc with
  | none =>
    right
    simp [attributeElement, h]
  | some c =>
    by_cases hc : c == ""
    · right
      simp [attributeElement, h, hc]
    · left
      constructor <;> simp [attributeElement, h, hc, sumVals_bump]

theorem foldAttr_sum_eq (ns : List (String × String)) (l : List Xml)
    (st : List (String × Nat) × List (String × Nat))
    (h : sumVals st.1 = sumVals st.2) :
    sumVals (l.foldl (attributeElement ns) st).1
      = sumVals (l.foldl (attributeElement ns) st).2 := by
  induction l generalizing st with
  | nil => exact h
  | cons e rest ih =>
    rw [List.foldl_cons]
    apply ih
    rcases attributeElement_step ns st e with ⟨h1, h2⟩ | heq
    · rw [h1, h2, h]
    · rw [heq]
      exact h

theorem extract_sum_eq (p : Option Xml)
    (st : List String × List (String × Nat) × List (String × Nat))
    (h : sumVals st.2.1 = sumVals st.2.2) :
    sumVals (extractConnectorsFromXml p st).2.1
      = sumVals (extractConnectorsFromXml p st).2.2 := by
  cases p with
  | none => exact h
  | some root =>
    simp only [extractConnectorsFromXml]
    exact foldAttr_sum_eq _ _ (st.2.1, st.2.2) h

theorem foldProcess_sum_eq (files : List XmlFile) (acc : ProjectAcc)
    (h : sumVals acc.connector_usage_count = sumVals acc.component_types) :
    sumVals (files.foldl processFile acc).connector_usage_count
      = sumVals (files.foldl processFile acc).component_types := by
  induction files generalizing acc with
  | nil => exact h
  | cons f rest ih =>
    rw [List.foldl_cons]
    apply ih
    exact extract_sum_eq f.parsed
      (acc.unique_connectors, acc.connector_usage_count, acc.component_types) h

/-- C10: for every project, the sum of all values of `connector_usage_count`
equals the sum of all values of `component_types`; each element that receives
a connector attribution bumps exactly one entry of each map by one, and no
other operation changes either map. -/
theorem C10_usage_sum_eq_component_sum (pin : ProjectInput) :
    (sumVals (analyzeProject pin).acc.connector_usage_count
        = sumVals (analyzeProject pin).acc.component_types)
    ∧ ∀ (ns : List (String × String))
        (st : List (String × Nat) × List (String × Nat)) (e : Xml),
        (sumVals (attributeElement ns st e).1 = sumVals st.1 + 1
          ∧ sumVals (attributeElement ns st e).2 = sumVals st.2 + 1)
        ∨ attributeElement ns st e = st := by
  refine ⟨?_, attributeElement_step⟩
  show sumVals (analyzeConfigurationFiles pin.xmlFiles).connector_usage_count
      = sumVals (analyzeConfigurationFiles pin.xmlFiles).component_types
  exact foldProcess_sum_eq pin.xmlFiles emptyAcc rfl

/-! ## Claim C4 -/

theorem extPassBStep_vals (acc : List (String × String)) (kv : String × String)
    (q : String × String) (hq : q ∈ extPassBStep acc kv) :
    q ∈ acc ∨ q.2 ≠ "core" := by
  simp only [extPassBStep] at hq
  by_cases h1 : (strStartsWith kv.1 "xmlns:" && strContains kv.2 muleConv) = true
  · rw [if_pos h1] at hq
    by_cases h2 : (lastSeg kv.2 == "core" || lastSeg kv.2 == "documentation") = true
    · rw [if_pos h2] at hq
      exact Or.inl hq
    · rw [if_neg h2] at hq
      rcases mem_dictInsert _ _ _ _ hq with h | h
      · exact Or.inl h
      · right
        rw [h]
        intro hcontra
        simp only at hcontra
        simp [hcontra] at h2
  · rw [if_neg h1] at hq
    exact Or.inl hq

theorem extPassAStep_vals (x : Xml) (acc : List (String × String))
    (pr : String × String) (q : String × String)
    (hq : q ∈ extPassAStep x acc pr) : q ∈ acc ∨ q.2 ≠ "core" := by
  simp only [extPassAStep] at hq
  by_cases h1 : (strContains pr.1 muleConv) = true
  · rw [if_pos h1] at hq
    by_cases h2 : (lastSeg pr.1 == "core" || lastSeg pr.1 == "documentation") = true
    · rw [if_pos h2] at hq
      exact Or.inl hq
    · rw [if_neg h2] at hq
      cases hfind : findXmlnsAttr x pr.1 with
      | none =>
        rw [hfind] at hq
        exact Or.inl hq
      | some attrName =>
        rw [hfind] at hq
        rcases mem_dictInsert _ _ _ _ hq with h | h
        · exact Or.inl h
        · right
          rw [h]
          intro hcontra
          simp only at hcontra
          simp [hcontra] at h2
  · rw [if_neg h1] at hq
    exact Or.inl hq

theorem foldB_vals_ne_core (l : List (String × String))
    (acc : List (String × String))
    (hacc : ∀ q ∈ acc, q.2 ≠ "core") :
    ∀ q ∈ l.foldl extPassBStep acc, q.2 ≠ "core" := by
  induction l generalizing acc with
  | nil => exact hacc
  | cons kv rest ih =>
    rw [List.foldl_cons]
    apply ih
    intro q hq
    rcases extPassBStep_vals acc kv q hq with h | h
    · exact hacc q h
    · exact h

theorem foldA_vals_ne_core (x : Xml) (l : List (String × String))
    (acc : List (String × String))
    (hacc : ∀ q ∈ acc, q.2 ≠ "core") :
    ∀ q ∈ l.foldl (extPassAStep x) acc, q.2 ≠ "core" := by
  induction l generalizing acc with
  | nil => exact hacc
  | cons pr rest ih =>
    rw [List.foldl_cons]
    apply ih
    intro q hq
    rcases extPassAStep_vals x acc pr q hq with h | h
    · exact hacc q h
    · exact h

/-- The prefix → connector dict of `_extract_connectors_from_xml` never maps
to `"core"`: both passes filter the reserved segment names. -/
theorem extNamespaces_vals_ne_core (x : Xml) :
    ∀ q ∈ extNamespaces x, q.2 ≠ "core" := by
  unfold extNamespaces
  apply foldB_vals_ne_core
  apply foldA_vals_ne_core
  intro q hq
  simp at hq

theorem extract_core_not_unique (p : Option Xml)
    (st : List String × List (String × Nat) × List (String × Nat))
    (h : "core" ∉ st.1) :
    "core" ∉ (extractConnectorsFromXml p st).1 := by
  cases p with
  | none => exact h
  | some root =>
    simp only [extractConnectorsFromXml, uniqueUnion]
    rw [List.mem_dedup, List.mem_append]
    rintro (hc | hc)
    · exact h hc
    · rcases List.mem_map.mp hc with ⟨q, hq, hq2⟩
      exact extNamespaces_vals_ne_core root q hq hq2

theorem foldProcess_core_not_unique (files : List XmlFile) (acc : ProjectAcc)
    (h : "core" ∉ acc.unique_connectors) :
    "core" ∉ (files.foldl processFile acc).unique_connectors := by
  induction files generalizing acc with
  | nil => exact h
  | cons f rest ih =>
    rw [List.foldl_cons]
    apply ih
    exact extract_core_not_unique f.parsed
      (acc.unique_connectors, acc.connector_usage_count, acc.component_types) h

/-- C4: for every project produced by the analyzer, the string `"core"` is
never a member of the project's `unique_connectors` list, regardless of the
namespaces, schema locations, or elements of any of its configuration files. -/
theorem C4_core_not_in_unique_connectors (pin : ProjectInput) :
    "core" ∉ (analyzeProject pin).acc.unique_connectors := by
  show "core" ∉ (analyzeConfigurationFiles pin.xmlFiles).unique_connectors
  exact foldProcess_core_not_unique pin.xmlFiles emptyAcc (by simp [emptyAcc])

/-! ## Claim C6 -/

theorem versionCounts_foldl (ps : List SProj) (c : Nat × Nat × Nat) :
    ps.foldl
      (fun c p =>
        if strStartsWith p.mule_version "4." then (c.1 + 1, c.2.1, c.2.2)
        else if strStartsWith p.mule_version "3." then (c.1, c.2.1 + 1, c.2.2)
        else (c.1, c.2.1, c.2.2 + 1)) c =
    (c.1 + ps.countP (fun p => strStartsWith p.mule_version "4."),
     c.2.1 + ps.countP (fun p =>
        !strStartsWith p.mule_version "4." && strStartsWith p.mule_version "3."),
     c.2.2 + ps.countP (fun p =>
        !strStartsWith p.mule_version "4." && !strStartsWith p.mule_version "3.")) := by
  induction ps generalizing c with
  | nil => simp
  | cons p rest ih =>
    rw [List.foldl_cons, ih]
    by_cases h4 : strStartsWith p.mule_version "4." = true
    · simp [List.countP_cons, h4]
      omega
    · by_cases h3 : strStartsWith p.mule_version "3." = true
      · simp [List.countP_cons, h4, h3]
        omega
      · simp [List.countP_cons, h4, h3]
        omega

/-- The version-bucket counters are occurrence counts. -/
theorem versionCounts_eq_countP (ps : List SProj) :
    versionCounts ps =
      (ps.countP (fun p => strStartsWith p.mule_version "4."),
       ps.countP (fun p =>
          !strStartsWith p.mule_version "4." && strStartsWith p.mule_version "3."),
       ps.countP (fun p =>
          !strStartsWith p.mule_version "4." && !strStartsWith p.mule_version "3.")) := by
  rw [versionCounts, versionCounts_foldl]
  simp

/-- The total count attributed to key `c` by one project's table. -/
def tallyOf (t : List (String × Nat)) (c : String) : Nat :=
  (t.map (fun kv => if kv.1 = c then kv.2 else 0)).sum

theorem counterAddTable_getD (t : List (String × Nat))
    (acc : List (String × Nat)) (c : String) :
    dictGetD (counterAddTable acc t) c 0 = dictGetD acc c 0 + tallyOf t c := by
  induction t generalizing acc with
  | nil => simp [counterAddTable, tallyOf]
  | cons kv rest ih =>
    rw [counterAddTable, List.foldl_cons]
    have := ih (bump acc kv.1 kv.2)
    rw [counterAddTable] at this
    rw [this, dictGetD_bump]
    simp only [tallyOf, List.map_cons, List.sum_cons]
    by_cases h : kv.1 = c
    · simp only [tallyOf] at *
      simp [h]
      omega
    · have h2 : ¬ c = kv.1 := fun hh => h hh.symm
      simp only [tallyOf] at *
      simp [h, h2]

theorem counterAddTable_keys_mem (t : List (String × Nat))
    (acc : List (String × Nat)) (c : String) :
    c ∈ dictKeys (counterAddTable acc t)
      ↔ c ∈ dictKeys acc ∨ ∃ kv ∈ t, kv.1 = c := by
  induction t generalizing acc with
  | nil => simp [counterAddTable]
  | cons kv rest ih =>
    rw [counterAddTable, List.foldl_cons]
    have := ih (bump acc kv.1 kv.2)
    rw [counterAddTable] at this
    rw [this, dictKeys_bump_mem]
    simp only [List.mem_cons]
    constructor
    · rintro ((h | h) | ⟨q, hq, hqc⟩)
      · exact Or.inl h
      · exact Or.inr ⟨kv, Or.inl rfl, h.symm⟩
      · exact Or.inr ⟨q, Or.inr hq, hqc⟩
    · rintro (h | ⟨q, hq | hq, hqc⟩)
      · exact Or.inl (Or.inl h)
      · exact Or.inl (Or.inr (hq ▸ hqc.symm))
      · exact Or.inr ⟨q, hq, hqc⟩

theorem aggFold_getD (g : SProj → List (String × Nat)) (ps : List SProj)
    (acc : List (String × Nat)) (c : String) :
    dictGetD (ps.foldl (fun a p => counterAddTable a (g p)) acc) c 0
      = dictGetD acc c 0 + (ps.map (fun p => tallyOf (g p) c)).sum := by
  induction ps generalizing acc with
  | nil => simp
  | cons p rest ih =>
    rw [List.foldl_cons, ih, counterAddTable_getD]
    simp only [List.map_cons, List.sum_cons]
    omega

theorem aggFold_keys_mem (g : SProj → List (String × Nat)) (ps : List SProj)
    (acc : List (String × Nat)) (c : String) :
    c ∈ dictKeys (ps.foldl (fun a p => counterAddTable a (g p)) acc)
      ↔ c ∈ dictKeys acc ∨ ∃ p ∈ ps, ∃ kv ∈ g p, kv.1 = c := by
  induction ps generalizing acc with
  | nil => simp
  | cons p rest ih =>
    rw [List.foldl_cons, ih, counterAddTable_keys_mem]
    simp only [List.mem_cons]
    constructor
    · rintro ((h | h) | ⟨q, hq, hkv⟩)
      · exact Or.inl h
      · exact Or.inr ⟨p, Or.inl rfl, h⟩
      · exact Or.inr ⟨q, Or.inr hq, hkv⟩
    · rintro (h | ⟨q, hq | hq, hkv⟩)
      · exact Or.inl (Or.inl h)
      · exact Or.inl (Or.inr (hq ▸ hkv))
      · exact Or.inr ⟨q, hq, hkv⟩

/-- C6: running the aggregator on any permutation of the project list yields
identical version-bucket counts, identical cross-project totals, and identical
connector-usage and component-type frequency tables (same counts and same key
sets). -/
theorem C6_aggregation_perm_invariant (l1 l2 : List SProj) (hp : l1.Perm l2) :
    versionCounts l1 = versionCounts l2
    ∧ summaryTotals l1 = summaryTotals l2
    ∧ (∀ c, dictGetD (aggConnectorUsage l1) c 0
          = dictGetD (aggConnectorUsage l2) c 0)
    ∧ (∀ c, c ∈ dictKeys (aggConnectorUsage l1)
          ↔ c ∈ dictKeys (aggConnectorUsage l2))
    ∧ (∀ c, dictGetD (aggComponentTypes l1) c 0
          = dictGetD (aggComponentTypes l2) c 0)
    ∧ (∀ c, c ∈ dictKeys (aggComponentTypes l1)
          ↔ c ∈ dictKeys (aggComponentTypes l2)) := by
  refine ⟨?_, ?_, ?_, ?_, ?_, ?_⟩
  · rw [versionCounts_eq_countP, versionCounts_eq_countP,
      hp.countP_eq, hp.countP_eq, hp.countP_eq]
  · simp only [summaryTotals, SummaryTotals.mk.injEq]
    exact ⟨(hp.map _).sum_eq, (hp.map _).sum_eq, (hp.map _).sum_eq,
      (hp.map _).sum_eq, (hp.map _).sum_eq, (hp.map _).sum_eq, (hp.map _).sum_eq⟩
  · intro c
    rw [aggConnectorUsage, aggConnectorUsage, aggFold_getD, aggFold_getD,
      (hp.map _).sum_eq]
  · intro c
    rw [aggConnectorUsage, aggConnectorUsage, aggFold_keys_mem, aggFold_keys_mem]
    constructor
    · rintro (h | ⟨p, hmem, rest⟩)
      · exact Or.inl h
      · exact Or.inr ⟨p, hp.mem_iff.mp hmem, rest⟩
    · rintro (h | ⟨p, hmem, rest⟩)
      · exact Or.inl h
      · exact Or.inr ⟨p, hp.mem_iff.mpr hmem, rest⟩
  · intro c
    rw [aggComponentTypes, aggComponentTypes, aggFold_getD, aggFold_getD,
      (hp.map _).sum_eq]
  · intro c
    rw [aggComponentTypes, aggComponentTypes, aggFold_keys_mem, aggFold_keys_mem]
    constructor
    · rintro (h | ⟨p, hmem, rest⟩)
      · exact Or.inl h
      · exact Or.inr ⟨p, hp.mem_iff.mp hmem, rest⟩
    · rintro (h | ⟨p, hmem, rest⟩)
      · exact Or.inl h
      · exact Or.inr ⟨p, hp.mem_iff.mpr hmem, rest⟩

/-- A concrete project result for the C6 witness. -/
def sprojA : SProj :=
  ⟨"4.4.0", 3, 1, 20, 2, 1, 4, 55, [("db", 2), ("http", 1)], [("db:select", 2)]⟩

/-- A second concrete project result for the C6 witness. -/
def sprojB : SProj :=
  ⟨"3.9.0", 1, 0, 5, 0, 0, 1, 10, [("db", 1)], [("flow", 1)]⟩

/-- C6 witness: the theorem applied to a two-element list and its swap. -/
theorem C6_aggregation_perm_invariant_witness :
    versionCounts [sprojA, sprojB] = versionCounts [sprojB, sprojA]
    ∧ summaryTotals [sprojA, sprojB] = summaryTotals [sprojB, sprojA]
    ∧ dictGetD (aggConnectorUsage [sprojA, sprojB]) "db" 0
        = dictGetD (aggConnectorUsage [sprojB, sprojA]) "db" 0 := by
  have h := C6_aggregation_perm_invariant [sprojA, sprojB] [sprojB, sprojA]
    (List.Perm.swap sprojB sprojA [])
  exact ⟨h.1, h.2.1, h.2.2.1 "db"⟩

/-! ## Claim C9 -/

theorem opt_none_or {α : Type} (b : Option α) : Option.or none b = b := rfl

theorem opt_some_or {α : Type} (a : α) (b : Option α) :
    Option.or (some a) b = some a := rfl

theorem opt_or_assoc {α : Type} (a b c : Option α) :
    Option.or (Option.or a b) c = Option.or a (Option.or b c) := by
  cases a <;> rfl

/-- One pass-(b) step seen through lookups: the step's own contribution
overrides the accumulator. -/
theorem passBStep_get (init : List (String × NsInfo)) (kv : String × String)
    (u : String) :
    dictGet (passBStep init kv) u
      = Option.or (dictGet (passBStep [] kv) u) (dictGet init u) := by
  unfold passBStep
  by_cases hc : (strStartsWith kv.1 "xmlns:" && strContains kv.2 muleConv) = true
  · rw [if_pos hc, if_pos hc, dictGet_insert]
    by_cases hu : u = kv.2
    · rw [if_pos hu]
      have : dictGet (dictInsert [] kv.2 (⟨chunkAfterColon kv.1, lastSeg kv.2⟩ : NsInfo)) u
          = some ⟨chunkAfterColon kv.1, lastSeg kv.2⟩ := by
        rw [dictGet_insert, if_pos hu]
      rw [this, opt_some_or]
    · rw [if_neg hu]
      have : dictGet (dictInsert [] kv.2 (⟨chunkAfterColon kv.1, lastSeg kv.2⟩ : NsInfo)) u
          = none := by
        rw [dictGet_insert, if_neg hu, dictGet_nil]
      rw [this, opt_none_or]
  · rw [if_neg hc, if_neg hc, dictGet_nil, opt_none_or]

/-- Folding pass (b) over any initial dict equals folding it over the empty
dict, with the initial dict as fallback: later writes win. -/
theorem foldB_get_override (l : List (String × String))
    (init : List (String × NsInfo)) (u : String) :
    dictGet (l.foldl passBStep init) u
      = Option.or (dictGet (l.foldl passBStep []) u) (dictGet init u) := by
  induction l generalizing init with
  | nil => simp [dictGet_nil, opt_none_or]
  | cons kv rest ih =>
    rw [List.foldl_cons, List.foldl_cons, ih (passBStep init kv),
      ih (passBStep [] kv), passBStep_get, opt_or_assoc]

/-- The last root attribute declaring URI `u` in pass-(b) form. -/
def lastDecl (attrs : List (String × String)) (u : String) :
    Option (String × String) :=
  (attrs.filter
    (fun kv => strStartsWith kv.1 "xmlns:" && strContains kv.2 muleConv
      && kv.2 == u)).getLast?

theorem getLast?_app_single {α : Type} (l : List α) (a : α) :
    (l ++ [a]).getLast? = some a := by
  rw [List.getLast?_append_cons]
  rfl

/-- Appending one declaration updates `lastDecl` exactly when it matches. -/
theorem lastDecl_append_single (l : List (String × String))
    (kv : String × String) (u : String) :
    lastDecl (l ++ [kv]) u =
      if (strStartsWith kv.1 "xmlns:" && strContains kv.2 muleConv
          && kv.2 == u) = true
      then some kv else lastDecl l u := by
  unfold lastDecl
  rw [List.filter_append]
  by_cases hall : (strStartsWith kv.1 "xmlns:" && strContains kv.2 muleConv
      && kv.2 == u) = true
  · rw [if_pos hall]
    have : List.filter
        (fun kv => strStartsWith kv.1 "xmlns:" && strContains kv.2 muleConv
          && kv.2 == u) [kv] = [kv] := by
      simp [List.filter, hall]
    rw [this, getLast?_app_single]
  · rw [if_neg hall]
    have : List.filter
        (fun kv => strStartsWith kv.1 "xmlns:" && strContains kv.2 muleConv
          && kv.2 == u) [kv] = [] := by
      simp [List.filter, hall]
    rw [this, List.append_nil]

/-- Pass (b) resolves URI `u` to the prefix of the last declaration of `u`
and to `u`'s final path segment as connector name. -/
theorem foldB_get_eq_lastDecl (l : List (String × String))
    (acc : List (String × NsInfo)) (u : String) :
    dictGet (l.foldl passBStep acc) u =
      match lastDecl l u with
      | some kv => some ⟨chunkAfterColon kv.1, lastSeg u⟩
      | none => dictGet acc u := by
  induction l using List.reverseRecOn with
  | nil => simp [lastDecl]
  | append_singleton l kv ih =>
    rw [List.foldl_append, List.foldl_cons, List.foldl_nil, lastDecl_append_single]
    by_cases h1 : (strStartsWith kv.1 "xmlns:" && strContains kv.2 muleConv) = true
    · simp only [passBStep]
      rw [if_pos h1, dictGet_insert]
      by_cases hu : u = kv.2
      · have hall : (strStartsWith kv.1 "xmlns:" && strContains kv.2 muleConv
            && kv.2 == u) = true := by
          simp only [Bool.and_eq_true] at h1 ⊢
          exact ⟨h1, by simp [hu.symm]⟩
        rw [if_pos hu, if_pos hall, hu]
      · have hall : ¬ (strStartsWith kv.1 "xmlns:" && strContains kv.2 muleConv
            && kv.2 == u) = true := by
          simp only [Bool.and_eq_true]
          rintro ⟨-, h2⟩
          rw [beq_iff_eq] at h2
          exact hu h2.symm
        rw [if_neg hu, if_neg hall, ih]
    · have hall : ¬ (strStartsWith kv.1 "xmlns:" && strContains kv.2 muleConv
          && kv.2 == u) = true := by
        simp only [Bool.and_eq_true]
        rintro ⟨h2, -⟩
        exact h1 (by simp [h2])
      simp only [passBStep]
      rw [if_neg h1, if_neg hall, ih]

/-- The root element of the concrete C9 witness file: no schema-location
attribute, one direct Mule-convention namespace declaration. -/
def c9Doc : Xml :=
  Xml.mk "mule" [("xmlns:db", "http://www.mulesoft.org/schema/mule/db")] []

/-- C9: both extraction passes run on every document and merge with the later
pass (direct `xmlns:` declarations) winning over the earlier pass
(schema-location pairs); a document without a schema-location declaration
still resolves every directly declared Mule-convention URI to its declared
prefix (the last declaration wins) and to the URI's final path segment as
connector name. -/
theorem C9_resolver_two_pass_merge (x : Xml) :
    (∀ u, dictGet (namespaceMappings x) u
        = Option.or (dictGet (passBMap x) u) (dictGet (passAMap x) u))
    ∧ (getAttrD x xsiSchemaLocationKey "" = "" →
        ∀ k v, (k, v) ∈ x.attrib → strStartsWith k "xmlns:" = true →
          strContains v muleConv = true →
          ∃ kLast, (kLast, v) ∈ x.attrib ∧ strStartsWith kLast "xmlns:" = true ∧
            dictGet (namespaceMappings x) v
              = some ⟨chunkAfterColon kLast, lastSeg v⟩) := by
  constructor
  · intro u
    rw [namespaceMappings, passBMap, foldB_get_override]
  · intro hNoSchema k v hmem hpre hconv
    have hpairs : schemaLocPairs x = [] := by
      rw [schemaLocPairs, hNoSchema]
      rfl
    have hA : passAMap x = [] := by
      rw [passAMap, hpairs]
      rfl
    have hmaps : namespaceMappings x = x.attrib.foldl passBStep [] := by
      rw [namespaceMappings, hA]
    have hfmem : (k, v) ∈ x.attrib.filter
        (fun kv => strStartsWith kv.1 "xmlns:" && strContains kv.2 muleConv
          && kv.2 == v) := by
      rw [List.mem_filter]
      exact ⟨hmem, by simp [hpre, hconv]⟩
    have hne : x.attrib.filter
        (fun kv => strStartsWith kv.1 "xmlns:" && strContains kv.2 muleConv
          && kv.2 == v) ≠ [] := by
      intro hnil
      rw [hnil] at hfmem
      simp at hfmem
    rcases hlast : lastDecl x.attrib v with _ | q
    · exfalso
      unfold lastDecl at hlast
      rw [List.getLast?_eq_none_iff] at hlast
      exact hne hlast
    · have hqmem : q ∈ x.attrib.filter
          (fun kv => strStartsWith kv.1 "xmlns:" && strContains kv.2 muleConv
            && kv.2 == v) := by
        unfold lastDecl at hlast
        have hq : q ∈ (x.attrib.filter
            (fun kv => strStartsWith kv.1 "xmlns:" && strContains kv.2 muleConv
              && kv.2 == v)).getLast? := by
          rw [hlast]
          rfl
        rcases List.mem_getLast?_eq_getLast hq with ⟨hne2, hgl⟩
        rw [hgl]
        exact List.getLast_mem hne2
      rw [List.mem_filter] at hqmem
      have hcond := hqmem.2
      simp only [Bool.and_eq_true, beq_iff_eq] at hcond
      have hq2 : q.2 = v := hcond.2
      have hqeq : q = (q.1, v) := by
        rw [← hq2]
      refine ⟨q.1, ?_, hcond.1.1, ?_⟩
      · rw [← hqeq]
        exact hqmem.1
      · rw [hmaps, foldB_get_eq_lastDecl, hlast]

/-- C9 witness: the resolver applied to the concrete declaration-only file. -/
theorem C9_resolver_two_pass_merge_witness :
    ∃ kLast, (kLast, "http://www.mulesoft.org/schema/mule/db") ∈ c9Doc.attrib
      ∧ strStartsWith kLast "xmlns:" = true
      ∧ dictGet (namespaceMappings c9Doc) "http://www.mulesoft.org/schema/mule/db"
          = some ⟨chunkAfterColon kLast,
              lastSeg "http://www.mulesoft.org/schema/mule/db"⟩ :=
  (C9_resolver_two_pass_merge c9Doc).2 (by decide) "xmlns:db"
    "http://www.mulesoft.org/schema/mule/db" (by decide) (by decide) (by decide)

/-! ## Claim C8

The scenario document: a bare `flow` root declaring `xmlns:db` and wrapping a
single `db:select` element.  The code also attributes the bare `flow` element
itself (to `core`), so `component_types` has a `flow` entry and
`connector_usage_count` a `core` entry, contrary to the claimed singletons. -/

/-- The C8 scenario document. -/
def dbDoc : Xml :=
  Xml.mk "flow" [("xmlns:db", "http://www.mulesoft.org/schema/mule/db")]
    [Xml.mk "\x7bhttp://www.mulesoft.org/schema/mule/db\x7dselect" [] []]

/-- C8 counterexample: on the scenario document the computed
`connector_usage_count` has entry `core ↦ 1` and `component_types` has entry
`flow ↦ 1`, so neither equals the claimed singleton tables `{"db": 1}` and
`{"db:select": 1}` (which hold no `core`/`flow` entry). -/
theorem C8_counterexample :
    dictGetD (analyzeProject ⟨[⟨"db.xml", 5, some dbDoc, []⟩], [],
        []⟩).acc.connector_usage_count "core" 0 = 1
    ∧ dictGetD (analyzeProject ⟨[⟨"db.xml", 5, some dbDoc, []⟩], [],
        []⟩).acc.component_types "flow" 0 = 1
    ∧ dictGetD [(("db" : String), (1 : Nat))] "core" 0 = 0
    ∧ dictGetD [(("db:select" : String), (1 : Nat))] "flow" 0 = 0 := by
  decide

/-- C8 (amended): the scenario yields `flows = 1`,
`unique_connectors = {"db"}`, `component_types = {"flow": 1, "db:select": 1}`
and `connector_usage_count = {"core": 1, "db": 1}` — the bare wrapping `flow`
element is attributed to the reserved `core` connector. -/
theorem C8_db_select_scenario :
    (analyzeProject ⟨[⟨"db.xml", 5, some dbDoc, []⟩], [], []⟩).acc.total_flows = 1
    ∧ (analyzeProject ⟨[⟨"db.xml", 5, some dbDoc, []⟩], [], []⟩).acc.total_subflows = 0
    ∧ (analyzeProject ⟨[⟨"db.xml", 5, some dbDoc, []⟩], [],
        []⟩).acc.unique_connectors = ["db"]
    ∧ (analyzeProject ⟨[⟨"db.xml", 5, some dbDoc, []⟩], [],
        []⟩).acc.connector_usage_count = [("core", 1), ("db", 1)]
    ∧ (analyzeProject ⟨[⟨"db.xml", 5, some dbDoc, []⟩], [],
        []⟩).acc.component_types = [("flow", 1), ("db:select", 1)] := by
  decide

/-! ## Claim C5 -/

theorem analyzeProject_acc (pin : ProjectInput) :
    (analyzeProject pin).acc = analyzeConfigurationFiles pin.xmlFiles := rfl

theorem extract_none
    (st : List String × List (String × Nat) × List (String × Nat)) :
    extractConnectorsFromXml none st = st := rfl

theorem foldProcess_records (files : List XmlFile) (acc : ProjectAcc) :
    (files.foldl processFile acc).fileRecords
      = acc.fileRecords ++ files.map recordOf := by
  induction files generalizing acc with
  | nil => simp
  | cons f fs ih =>
    rw [List.foldl_cons, ih]
    simp [processFile]

theorem foldProcess_flows (files : List XmlFile) (acc : ProjectAcc) :
    (files.foldl processFile acc).total_flows
      = acc.total_flows
          + (files.map (fun f => (analyzeXmlFile f.lineCount f.parsed).flows)).sum := by
  induction files generalizing acc with
  | nil => simp
  | cons f fs ih =>
    rw [List.foldl_cons, ih]
    simp [processFile, Nat.add_assoc]

theorem foldProcess_subflows (files : List XmlFile) (acc : ProjectAcc) :
    (files.foldl processFile acc).total_subflows
      = acc.total_subflows
          + (files.map (fun f => (analyzeXmlFile f.lineCount f.parsed).subflows)).sum := by
  induction files generalizing acc with
  | nil => simp
  | cons f fs ih =>
    rw [List.foldl_cons, ih]
    simp [processFile, Nat.add_assoc]

theorem foldProcess_components (files : List XmlFile) (acc : ProjectAcc) :
    (files.foldl processFile acc).total_components
      = acc.total_components
          + (files.map (fun f => (analyzeXmlFile f.lineCount f.parsed).components)).sum := by
  induction files generalizing acc with
  | nil => simp
  | cons f fs ih =>
    rw [List.foldl_cons, ih]
    simp [processFile, Nat.add_assoc]

theorem foldProcess_inline (files : List XmlFile) (acc : ProjectAcc) :
    (files.foldl processFile acc).inline_dw_expressions_count
      = acc.inline_dw_expressions_count
          + (files.map (fun f => f.dwSpans.length)).sum := by
  induction files generalizing acc with
  | nil => simp
  | cons f fs ih =>
    rw [List.foldl_cons, ih]
    simp [processFile, Nat.add_assoc]

theorem foldProcess_warnings (files : List XmlFile) (acc : ProjectAcc) :
    (files.foldl processFile acc).warnings
      = acc.warnings ++ files.flatMap warningsOf := by
  induction files generalizing acc with
  | nil => simp
  | cons f fs ih =>
    rw [List.foldl_cons, ih]
    simp [processFile]

theorem foldProcess_triple (files : List XmlFile) (acc : ProjectAcc) :
    ((files.foldl processFile acc).unique_connectors,
     (files.foldl processFile acc).connector_usage_count,
     (files.foldl processFile acc).component_types)
      = files.foldl (fun t f => extractConnectorsFromXml f.parsed t)
          (acc.unique_connectors, acc.connector_usage_count, acc.component_types) := by
  induction files generalizing acc with
  | nil => simp
  | cons f fs ih =>
    rw [List.foldl_cons, ih, List.foldl_cons]
    simp [processFile]

/-- C5 (amended): a readable configuration file whose document fails to parse
produces two warnings, contributes zero flows, sub-flows, components and tag
tallies, and leaves the connector maps exactly as the other files produce
them; but its line count is still recorded (and still counts toward the large
file list when above 1000 lines) and the lexical DataWeave scan of its raw
text still contributes; the other files are fully counted and a complexity
score is still computed from the accumulated counts. -/
theorem C5_parse_failure_scoped (jls dls : List Nat) (pre post : List XmlFile)
    (f : XmlFile) (hf : f.parsed = none) :
    ("Could not parse XML file " ++ f.name)
        ∈ (analyzeProject ⟨pre ++ f :: post, jls, dls⟩).acc.warnings
    ∧ recordOf f = ⟨f.name, f.lineCount, 0, 0, 0, []⟩
    ∧ recordOf f ∈ (analyzeProject ⟨pre ++ f :: post, jls, dls⟩).acc.fileRecords
    ∧ (analyzeProject ⟨pre ++ f :: post, jls, dls⟩).acc.total_flows
        = (analyzeProject ⟨pre ++ post, jls, dls⟩).acc.total_flows
    ∧ (analyzeProject ⟨pre ++ f :: post, jls, dls⟩).acc.total_subflows
        = (analyzeProject ⟨pre ++ post, jls, dls⟩).acc.total_subflows
    ∧ (analyzeProject ⟨pre ++ f :: post, jls, dls⟩).acc.total_components
        = (analyzeProject ⟨pre ++ post, jls, dls⟩).acc.total_components
    ∧ (analyzeProject ⟨pre ++ f :: post, jls, dls⟩).acc.unique_connectors
        = (analyzeProject ⟨pre ++ post, jls, dls⟩).acc.unique_connectors
    ∧ (analyzeProject ⟨pre ++ f :: post, jls, dls⟩).acc.connector_usage_count
        = (analyzeProject ⟨pre ++ post, jls, dls⟩).acc.connector_usage_count
    ∧ (analyzeProject ⟨pre ++ f :: post, jls, dls⟩).acc.component_types
        = (analyzeProject ⟨pre ++ post, jls, dls⟩).acc.component_types
    ∧ (analyzeProject ⟨pre ++ f :: post, jls, dls⟩).acc.inline_dw_expressions_count
        = (analyzeProject ⟨pre ++ post, jls, dls⟩).acc.inline_dw_expressions_count
            + f.dwSpans.length
    ∧ (analyzeProject ⟨pre ++ f :: post, jls, dls⟩).acc.large_files.length
        = (analyzeProject ⟨pre ++ post, jls, dls⟩).acc.large_files.length
            + (if 1000 < f.lineCount then 1 else 0)
    ∧ (analyzeProject ⟨pre ++ f :: post, jls, dls⟩).complexity_score
        = calcProjectComplexity
            (analyzeProject ⟨pre ++ f :: post, jls, dls⟩).acc.connector_usage_count
            (analyzeProject ⟨pre ++ f :: post, jls, dls⟩).acc.total_flows
            (analyzeProject ⟨pre ++ f :: post, jls, dls⟩).acc.total_subflows
            (analyzeProject ⟨pre ++ f :: post, jls, dls⟩).acc.total_components
            (analyzeProject ⟨pre ++ f :: post, jls, dls⟩).java_files_count
            (analyzeProject ⟨pre ++ f :: post, jls, dls⟩).total_custom_code_lines
            (analyzeProject ⟨pre ++ f :: post, jls, dls⟩).dwl_files_count
            (analyzeProject ⟨pre ++ f :: post, jls, dls⟩).complex_transformations
            (analyzeProject ⟨pre ++ f :: post, jls, dls⟩).acc.large_files.length := by
  have hrec : recordOf f = ⟨f.name, f.lineCount, 0, 0, 0, []⟩ := by
    simp [recordOf, hf, analyzeXmlFile]
  have hzero : analyzeXmlFile f.lineCount f.parsed =
      { line_count := f.lineCount, flows := 0, subflows := 0, components := 0,
        xml_tags_by_namespace := [] } := by
    rw [hf]
    rfl
  refine ⟨?_, hrec, ?_, ?_, ?_, ?_, ?_, ?_, ?_, ?_, ?_, rfl⟩
  · rw [analyzeProject_acc]
    show ("Could not parse XML file " ++ f.name)
        ∈ ((pre ++ f :: post).foldl processFile emptyAcc).warnings
    rw [foldProcess_warnings]
    simp only [emptyAcc, List.nil_append, List.flatMap_append, List.flatMap_cons]
    rw [List.mem_append, List.mem_append]
    right
    left
    simp [warningsOf, hf]
  · rw [analyzeProject_acc]
    show recordOf f ∈ ((pre ++ f :: post).foldl processFile emptyAcc).fileRecords
    rw [foldProcess_records]
    simp
  · rw [analyzeProject_acc, analyzeProject_acc]
    show ((pre ++ f :: post).foldl processFile emptyAcc).total_flows
        = ((pre ++ post).foldl processFile emptyAcc).total_flows
    rw [foldProcess_flows, foldProcess_flows]
    simp [hzero]
  · rw [analyzeProject_acc, analyzeProject_acc]
    show ((pre ++ f :: post).foldl processFile emptyAcc).total_subflows
        = ((pre ++ post).foldl processFile emptyAcc).total_subflows
    rw [foldProcess_subflows, foldProcess_subflows]
    simp [hzero]
  · rw [analyzeProject_acc, analyzeProject_acc]
    show ((pre ++ f :: post).foldl processFile emptyAcc).total_components
        = ((pre ++ post).foldl processFile emptyAcc).total_components
    rw [foldProcess_components, foldProcess_components]
    simp [hzero]
  · rw [analyzeProject_acc, analyzeProject_acc]
    have h1 := foldProcess_triple (pre ++ f :: post) emptyAcc
    have h2 := foldProcess_triple (pre ++ post) emptyAcc
    have hfold : (pre ++ f :: post).foldl
        (fun t f => extractConnectorsFromXml f.parsed t)
        (emptyAcc.unique_connectors, emptyAcc.connector_usage_count,
          emptyAcc.component_types)
        = (pre ++ post).foldl (fun t f => extractConnectorsFromXml f.parsed t)
          (emptyAcc.unique_connectors, emptyAcc.connector_usage_count,
            emptyAcc.component_types) := by
      rw [List.foldl_append, List.foldl_append, List.foldl_cons, hf, extract_none]
    show ((pre ++ f :: post).foldl processFile emptyAcc).unique_connectors
        = ((pre ++ post).foldl processFile emptyAcc).unique_connectors
    have := congrArg (fun t => t.1) (h1.trans (hfold.trans h2.symm))
    simpa using this
  · rw [analyzeProject_acc, analyzeProject_acc]
    have h1 := foldProcess_triple (pre ++ f :: post) emptyAcc
    have h2 := foldProcess_triple (pre ++ post) emptyAcc
    have hfold : (pre ++ f :: post).foldl
        (fun t f => extractConnectorsFromXml f.parsed t)
        (emptyAcc.unique_connectors, emptyAcc.connector_usage_count,
          emptyAcc.component_types)
        = (pre ++ post).foldl (fun t f => extractConnectorsFromXml f.parsed t)
          (emptyAcc.unique_connectors, emptyAcc.connector_usage_count,
            emptyAcc.component_types) := by
      rw [List.foldl_append, List.foldl_append, List.foldl_cons, hf, extract_none]
    show ((pre ++ f :: post).foldl processFile emptyAcc).connector_usage_count
        = ((pre ++ post).foldl processFile emptyAcc).connector_usage_count
    have := congrArg (fun t => t.2.1) (h1.trans (hfold.trans h2.symm))
    simpa using this
  · rw [analyzeProject_acc, analyzeProject_acc]
    have h1 := foldProcess_triple (pre ++ f :: post) emptyAcc
    have h2 := foldProcess_triple (pre ++ post) emptyAcc
    have hfold : (pre ++ f :: post).foldl
        (fun t f => extractConnectorsFromXml f.parsed t)
        (emptyAcc.unique_connectors, emptyAcc.connector_usage_count,
          emptyAcc.component_types)
        = (pre ++ post).foldl (fun t f => extractConnectorsFromXml f.parsed t)
          (emptyAcc.unique_connectors, emptyAcc.connector_usage_count,
            emptyAcc.component_types) := by
      rw [List.foldl_append, List.foldl_append, List.foldl_cons, hf, extract_none]
    show ((pre ++ f :: post).foldl processFile emptyAcc).component_types
        = ((pre ++ post).foldl processFile emptyAcc).component_types
    have := congrArg (fun t => t.2.2) (h1.trans (hfold.trans h2.symm))
    simpa using this
  · rw [analyzeProject_acc, analyzeProject_acc]
    show ((pre ++ f :: post).foldl processFile emptyAcc).inline_dw_expressions_count
        = ((pre ++ post).foldl processFile emptyAcc).inline_dw_expressions_count
            + f.dwSpans.length
    rw [foldProcess_inline, foldProcess_inline]
    simp
    omega
  · rw [analyzeProject_acc, analyzeProject_acc]
    show ((pre ++ f :: post).foldl processFile emptyAcc).large_files.length
        = ((pre ++ post).foldl processFile emptyAcc).large_files.length
            + (if 1000 < f.lineCount then 1 else 0)
    rw [foldProcess_large, foldProcess_large]
    simp only [emptyAcc, List.nil_append, List.filter_append, List.filter_cons,
      List.length_append, List.length_map]
    by_cases h : 1000 < f.lineCount
    · simp [h]
      omega
    · simp [h]

/-- A well-formed configuration file of the C5 concrete project. -/
def c5Good : XmlFile :=
  ⟨"good.xml", 3, some (Xml.mk "mule" [] [Xml.mk "flow" [] []]), []⟩

/-- The malformed (readable, unparsable) file of the C5 concrete project:
1200 lines of content and one 15-line expression match in its raw text. -/
def c5Bad : XmlFile := ⟨"bad.xml", 1200, none, [15]⟩

/-- C5 witness: the amended theorem applied to the concrete two-file project. -/
theorem C5_parse_failure_scoped_witness :
    ("Could not parse XML file " ++ c5Bad.name)
        ∈ (analyzeProject ⟨[c5Good] ++ c5Bad :: [], [], []⟩).acc.warnings
    ∧ (analyzeProject ⟨[c5Good] ++ c5Bad :: [], [], []⟩).acc.total_flows
        = (analyzeProject ⟨[c5Good] ++ [], [], []⟩).acc.total_flows :=
  have h := C5_parse_failure_scoped [] [] [c5Good] [] c5Bad rfl
  ⟨h.1, h.2.2.2.1⟩

/-- C5 counterexample: the claim says a malformed file contributes zero to all
its file-level counts, including its line count and expression findings.  On
the concrete project the malformed 1200-line file is recorded with
`size_lines = 1200` (not 0), it is the project's only large file, and the
project's expression findings count 1 — entirely from the malformed file's raw
text. -/
theorem C5_counterexample :
    (⟨"bad.xml", 1200, 0, 0, 0, []⟩ : FileRecord)
        ∈ (analyzeProject ⟨[c5Good, c5Bad], [], []⟩).acc.fileRecords
    ∧ (analyzeProject ⟨[c5Good, c5Bad], [], []⟩).acc.large_files
        = [("bad.xml", 1200)]
    ∧ (analyzeProject ⟨[c5Good, c5Bad], [], []⟩).acc.inline_dw_expressions_count
        = 1 := by
  decide

/-! ## Claim C3

The depth guard of `_find_mulesoft_projects_recursive` stops recursion into a
directory whose relative depth exceeds `max_depth`, but projects are recorded
as children of the visited directory, so a project can be reported at depth
`max_depth + 1` (5 with the default 4).  The walker does stop at every
classified project root, so no reported project lies strictly inside another
reported project's subtree (below, under the filesystem invariant that sibling
directory names are distinct, which every real directory tree satisfies). -/

/-- Pairwise-distinct strings (sibling directory names). -/
def nodupB : List String → Bool
  | [] => true
  | x :: xs => !(xs.contains x) && nodupB xs

mutual
/-- The filesystem invariant: sibling directory names are distinct,
recursively. -/
def FsDir.wfB : FsDir → Bool
  | .mk _ _ s => nodupB (s.map FsDir.name) && wfLB s

/-- `wfB` over a list of sibling directories. -/
def wfLB : List FsDir → Bool
  | [] => true
  | d :: ds => d.wfB && wfLB ds
end

/-- Structural induction for `FsDir` through the nested subdirectory list. -/
theorem FsDir.strongIndDir (P : FsDir → Prop)
    (h : ∀ n f s, (∀ d, d ∈ s → P d) → P (FsDir.mk n f s)) : ∀ x, P x
  | FsDir.mk n f s => h n f s (fun d hd => FsDir.strongIndDir P h d)
termination_by x => sizeOf x
decreasing_by
  have h1 : sizeOf d < sizeOf s := List.sizeOf_lt_of_mem hd
  simp only [FsDir.mk.sizeOf_spec]
  omega

theorem wfLB_mem (l : List FsDir) (d : FsDir) (hl : wfLB l = true)
    (hd : d ∈ l) : FsDir.wfB d = true := by
  induction l with
  | nil => simp at hd
  | cons x xs ih =>
    rw [wfLB, Bool.and_eq_true] at hl
    rcases List.mem_cons.mp hd with h | h
    · rw [h]
      exact hl.1
    · exact ih hl.2 h

theorem findInList_nil_eq (maxD : Nat) (ts : List String) (rel : List String) :
    findInList maxD ts [] rel = [] := by
  rw [findInList]

theorem findInList_cons_eq (maxD : Nat) (ts : List String) (item : FsDir)
    (rest : List FsDir) (rel : List String) :
    findInList maxD ts (item :: rest) rel =
      (if !(strStartsWith item.name ".") then
        (if isMulesoftProject item then
          (if ts.isEmpty || ts.contains item.name then [rel ++ [item.name]]
           else [])
         else findIn maxD ts item (rel ++ [item.name]))
       else []) ++ findInList maxD ts rest rel := by
  rw [findInList]

theorem findIn_eq (maxD : Nat) (ts : List String) (cur : FsDir)
    (rel : List String) :
    findIn maxD ts cur rel =
      if rel.length > maxD then []
      else findInList maxD ts cur.subdirs rel := by
  rw [findIn]

/-- Every path reported below a directory strictly extends the directory's
relative path (given the extension property for its subdirectories). -/
theorem findInList_shape_of (maxD : Nat) (ts : List String) (l : List FsDir)
    (hP : ∀ d ∈ l, ∀ rel q, q ∈ findIn maxD ts d rel →
      ∃ suf, suf ≠ [] ∧ q = rel ++ suf) :
    ∀ rel q, q ∈ findInList maxD ts l rel →
      ∃ d, d ∈ l ∧ ∃ suf, q = rel ++ d.name :: suf := by
  induction l with
  | nil =>
    intro rel q hq
    rw [findInList_nil_eq] at hq
    simp at hq
  | cons item rest ih =>
    intro rel q hq
    rw [findInList_cons_eq, List.mem_append] at hq
    rcases hq with hq | hq
    · by_cases hh : strStartsWith item.name "." = true
      · simp [hh] at hq
      · rw [if_pos (by simp [hh])] at hq
        by_cases hproj : isMulesoftProject item = true
        · rw [if_pos hproj] at hq
          by_cases hts : (ts.isEmpty || ts.contains item.name) = true
          · rw [if_pos hts] at hq
            rcases List.mem_singleton.mp hq with rfl
            exact ⟨item, List.mem_cons_self item rest, [], rfl⟩
          · rw [if_neg hts] at hq
            simp at hq
        · rw [if_neg hproj] at hq
          rcases hP item (List.mem_cons_self item rest) _ q hq with ⟨suf, hne, heq⟩
          refine ⟨item, List.mem_cons_self item rest, suf, ?_⟩
          rw [heq, List.append_assoc]
          rfl
    · rcases ih (fun d hd => hP d (List.mem_cons_of_mem item hd)) rel q hq with
        ⟨d, hd, suf, heq⟩
      exact ⟨d, List.mem_cons_of_mem item hd, suf, heq⟩

/-- Every reported path strictly extends the relative path of the directory it
was found under. -/
theorem findIn_ext (maxD : Nat) (ts : List String) :
    ∀ cur rel q, q ∈ findIn maxD ts cur rel →
      ∃ suf, suf ≠ [] ∧ q = rel ++ suf := by
  intro cur
  induction cur using FsDir.strongIndDir with
  | h n fs subs ihs =>
    intro rel q hq
    rw [findIn_eq] at hq
    by_cases hd : rel.length > maxD
    · rw [if_pos hd] at hq
      simp at hq
    · rw [if_neg hd] at hq
      have hsubs : (FsDir.mk n fs subs).subdirs = subs := rfl
      rw [hsubs] at hq
      rcases findInList_shape_of maxD ts subs ihs rel q hq with ⟨d, _, suf, heq⟩
      exact ⟨d.name :: suf, by simp, heq⟩

/-- Shape of the paths reported directly by the directory-list loop. -/
theorem findInList_shape (maxD : Nat) (ts : List String) (l : List FsDir)
    (rel : List String) (q : List String) (hq : q ∈ findInList maxD ts l rel) :
    ∃ d, d ∈ l ∧ ∃ suf, q = rel ++ d.name :: suf :=
  findInList_shape_of maxD ts l (fun d _ => findIn_ext maxD ts d) rel q hq

theorem findInList_depth_of (maxD : Nat) (ts : List String) (l : List FsDir)
    (hP : ∀ d ∈ l, ∀ rel q, q ∈ findIn maxD ts d rel → q.length ≤ maxD + 1) :
    ∀ rel, rel.length ≤ maxD →
      ∀ q, q ∈ findInList maxD ts l rel → q.length ≤ maxD + 1 := by
  induction l with
  | nil =>
    intro rel _ q hq
    rw [findInList_nil_eq] at hq
    simp at hq
  | cons item rest ih =>
    intro rel hrel q hq
    rw [findInList_cons_eq, List.mem_append] at hq
    rcases hq with hq | hq
    · by_cases hh : strStartsWith item.name "." = true
      · simp [hh] at hq
      · rw [if_pos (by simp [hh])] at hq
        by_cases hproj : isMulesoftProject item = true
        · rw [if_pos hproj] at hq
          by_cases hts : (ts.isEmpty || ts.contains item.name) = true
          · rw [if_pos hts] at hq
            rcases List.mem_singleton.mp hq with rfl
            simp
            omega
          · rw [if_neg hts] at hq
            simp at hq
        · rw [if_neg hproj] at hq
          exact hP item (List.mem_cons_self item rest) _ q hq
    · exact ih (fun d hd => hP d (List.mem_cons_of_mem item hd)) rel hrel q hq

/-- Depth bound: every reported path has length at most `max_depth + 1`. -/
theorem findIn_depth (maxD : Nat) (ts : List String) :
    ∀ cur rel q, q ∈ findIn maxD ts cur rel → q.length ≤ maxD + 1 := by
  intro cur
  induction cur using FsDir.strongIndDir with
  | h n fs subs ihs =>
    intro rel q hq
    rw [findIn_eq] at hq
    by_cases hd : rel.length > maxD
    · rw [if_pos hd] at hq
      simp at hq
    · rw [if_neg hd] at hq
      have hsubs : (FsDir.mk n fs subs).subdirs = subs := rfl
      rw [hsubs] at hq
      exact findInList_depth_of maxD ts subs ihs rel (by omega) q hq

theorem findInList_antichain_of (maxD : Nat) (ts : List String) (l : List FsDir)
    (hInd : ∀ d ∈ l, FsDir.wfB d = true → ∀ rel p q, p ∈ findIn maxD ts d rel →
      q ∈ findIn maxD ts d rel → p ≠ q → ¬ p <+: q)
    (hnd : nodupB (l.map FsDir.name) = true) (hwl : wfLB l = true) :
    ∀ rel p q, p ∈ findInList maxD ts l rel → q ∈ findInList maxD ts l rel →
      p ≠ q → ¬ p <+: q := by
  induction l with
  | nil =>
    intro rel p q hp _ _ _
    rw [findInList_nil_eq] at hp
    simp at hp
  | cons item rest ih =>
    intro rel p q hp hq hne hpre
    rw [findInList_cons_eq, List.mem_append] at hp hq
    rw [List.map_cons, nodupB, Bool.and_eq_true] at hnd
    rw [wfLB, Bool.and_eq_true] at hwl
    have hHeadShape : ∀ r, r ∈ (if !(strStartsWith item.name ".") then
        (if isMulesoftProject item then
          (if ts.isEmpty || ts.contains item.name then [rel ++ [item.name]]
           else [])
         else findIn maxD ts item (rel ++ [item.name]))
       else []) → ∃ suf, r = rel ++ item.name :: suf := by
      intro r hr
      by_cases hh : strStartsWith item.name "." = true
      · simp [hh] at hr
      · rw [if_pos (by simp [hh])] at hr
        by_cases hproj : isMulesoftProject item = true
        · rw [if_pos hproj] at hr
          by_cases hts : (ts.isEmpty || ts.contains item.name) = true
          · rw [if_pos hts] at hr
            rcases List.mem_singleton.mp hr with rfl
            exact ⟨[], rfl⟩
          · rw [if_neg hts] at hr
            simp at hr
        · rw [if_neg hproj] at hr
          rcases findIn_ext maxD ts item _ r hr with ⟨suf, _, heq⟩
          refine ⟨suf, ?_⟩
          rw [heq, List.append_assoc]
          rfl
    have hNameNotRest : ∀ d, d ∈ rest → ¬ d.name = item.name := by
      intro d hd hcontra
      have hmm : item.name ∈ List.map FsDir.name rest :=
        hcontra ▸ List.mem_map_of_mem FsDir.name hd
      have : (List.map FsDir.name rest).contains item.name = true := by
        simpa using hmm
      have hnc := hnd.1
      rw [this] at hnc
      simp at hnc
    rcases hp with hp | hp
    · rcases hq with hq | hq
      · by_cases hh : strStartsWith item.name "." = true
        · simp [hh] at hp
        · rw [if_pos (by simp [hh])] at hp hq
          by_cases hproj : isMulesoftProject item = true
          · rw [if_pos hproj] at hp hq
            by_cases hts : (ts.isEmpty || ts.contains item.name) = true
            · rw [if_pos hts] at hp hq
              rcases List.mem_singleton.mp hp with rfl
              rcases List.mem_singleton.mp hq with h2
              exact hne h2.symm
            · rw [if_neg hts] at hp
              simp at hp
          · rw [if_neg hproj] at hp hq
            exact hInd item (List.mem_cons_self item rest) hwl.1
              _ p q hp hq hne hpre
      · rcases hHeadShape p hp with ⟨sp, hpeq⟩
        rcases findInList_shape maxD ts rest rel q hq with ⟨d, hd, sq, hqeq⟩
        rw [hpeq, hqeq, List.prefix_append_right_inj, List.cons_prefix_cons]
          at hpre
        exact hNameNotRest d hd hpre.1.symm
    · rcases hq with hq | hq
      · rcases hHeadShape q hq with ⟨sq, hqeq⟩
        rcases findInList_shape maxD ts rest rel p hp with ⟨d, hd, sp, hpeq⟩
        rw [hpeq, hqeq, List.prefix_append_right_inj, List.cons_prefix_cons]
          at hpre
        exact hNameNotRest d hd hpre.1
      · exact ih (fun d hd => hInd d (List.mem_cons_of_mem item hd))
          hnd.2 hwl.2 rel p q hp hq hne hpre

/-- No reported project path lies strictly inside another reported project's
subtree, on any well-formed directory tree. -/
theorem findIn_antichain (maxD : Nat) (ts : List String) :
    ∀ cur, FsDir.wfB cur = true → ∀ rel p q, p ∈ findIn maxD ts cur rel →
      q ∈ findIn maxD ts cur rel → p ≠ q → ¬ p <+: q := by
  intro cur
  induction cur using FsDir.strongIndDir with
  | h n fs subs ihs =>
    intro hwf rel p q hp hq hne hpre
    rw [findIn_eq] at hp hq
    by_cases hd : rel.length > maxD
    · rw [if_pos hd] at hp
      simp at hp
    · rw [if_neg hd] at hp hq
      have hsubs : (FsDir.mk n fs subs).subdirs = subs := rfl
      rw [hsubs] at hp hq
      rw [FsDir.wfB, Bool.and_eq_true] at hwf
      exact findInList_antichain_of maxD ts subs
        (fun d hdm hwd => ihs d hdm hwd) hwf.1 hwf.2 rel p q hp hq hne hpre

/-- C3 (amended): with maximum depth `maxD` (default 4), no project is
reported whose relative path has more than `maxD + 1` components — the depth
guard stops recursion into directories deeper than `maxD` but still reports
their project children, so the tight bound is `maxD + 1`, not `maxD` — and on
any directory tree with distinct sibling names no reported project lies
strictly inside another reported project's subtree (the walker never recurses
into a classified project root). -/
theorem C3_depth_bound_and_no_nested_projects (root : FsDir) (maxD : Nat)
    (ts : List String) (hwf : FsDir.wfB root = true) :
    (∀ p, p ∈ findProjects root maxD ts → p.length ≤ maxD + 1)
    ∧ (∀ p q, p ∈ findProjects root maxD ts → q ∈ findProjects root maxD ts →
        p ≠ q → ¬ p <+: q) :=
  ⟨fun p hp => findIn_depth maxD ts root [] p hp,
   fun p q hp hq hne => findIn_antichain maxD ts root hwf [] p q hp hq hne⟩

/-- A five-level directory chain ending in a project (`pom.xml` present). -/
def deepTree : FsDir :=
  FsDir.mk "root" []
    [FsDir.mk "a" []
      [FsDir.mk "b" []
        [FsDir.mk "c" []
          [FsDir.mk "d" []
            [FsDir.mk "p" ["pom.xml"] []]]]]]

/-- C3 counterexample: with the default maximum depth 4, the project at
relative path `a/b/c/d/p` — depth 5 — is reported: the depth guard bounds the
directories recursed into, not the depth of recorded projects. -/
theorem C3_counterexample :
    ["a", "b", "c", "d", "p"] ∈ findProjects deepTree 4 []
    ∧ 4 < (["a", "b", "c", "d", "p"] : List String).length := by
  constructor
  · have h : findProjects deepTree 4 [] = [["a", "b", "c", "d", "p"]] := by
      simp +decide [findProjects, findIn, findInList, deepTree, FsDir.subdirs,
        FsDir.name, isMulesoftProject, FsDir.hasPath, FsDir.files]
    simp [h]
  · decide

/-- A two-project tree for the C3 witness: `a` is a project at depth 1,
`b/c` a project at depth 2. -/
def c3Tree : FsDir :=
  FsDir.mk "root" []
    [FsDir.mk "a" ["pom.xml"] [],
     FsDir.mk "b" [] [FsDir.mk "c" ["mule-artifact.json"] []]]

/-- C3 witness: the amended theorem applied to the concrete two-project tree. -/
theorem C3_depth_bound_and_no_nested_projects_witness :
    (["b", "c"] : List String).length ≤ 4 + 1
    ∧ ¬ (["a"] : List String) <+: ["b", "c"] := by
  have hwf : FsDir.wfB c3Tree = true := by
    simp +decide [FsDir.wfB, wfLB, nodupB, c3Tree, FsDir.name]
  have hfp : findProjects c3Tree 4 [] = [["a"], ["b", "c"]] := by
    simp +decide [findProjects, findIn, findInList, c3Tree, FsDir.subdirs,
      FsDir.name, isMulesoftProject, FsDir.hasPath, FsDir.files]
  have h := C3_depth_bound_and_no_nested_projects c3Tree 4 [] hwf
  constructor
  · exact h.1 ["b", "c"] (by simp [hfp])
  · exact h.2 ["a"] ["b", "c"] (by simp [hfp]) (by simp [hfp]) (by decide)
